import Mathlib

/-!
# scorpion::StateMachine (include/StateMachine.hpp)

A shallow embedding of the header-only state machine and a verification of
its handling algorithm.

Modelling decisions.

* `std::shared_ptr<IState<DataPack>>` is an `Option Ptr`: `none` is `nullptr`,
  `some p` is the address of a live object.  Objects live in `heap`, and
  `next` is the address the next `std::make_shared` returns, so two
  registrations never yield the same object.
* `std::unordered_map` is an association list with unique keys.  `find`,
  `operator[]` used as a read (which INSERTS a value-initialised entry for an
  absent key) and `operator[]` used as an assignment target are modelled
  separately.  The iteration order of the container is unspecified; all
  theorems over an arbitrary machine hold for every order of the list.
* The state variants are supplied by the caller.  An object is its
  description, its `data_` and the three `...Impl` member functions; the
  hooks act on the object's own `data_`, the validator reads it.
  `DataPack` is default-constructible in the source (`DataPack data_;`),
  hence `[Inhabited D]` where a machine is created.
* A raised `std::runtime_error` is an `Error` returned together with the
  machine as it stands when the exception leaves the function: the memory at
  the throw.  `setStartingState` and `handleAction` carry the dynamic
  exception specification `throw()`, so a raise from them ends the process
  and no further call is made on that machine.  The histories after which a
  program is still running are those in which every such call has returned
  (`returning`, `allReturn`); statements about what later calls do are made
  over these.
* `handleAction` also returns the list of hook invocations it made; this is
  observation only and does not influence the computation.
-/

namespace scorpion

/-- Address of a heap object: the identity of a non-null shared pointer. -/
abbrev Ptr := Nat

/-- The object behind `State<T, DataPack>`: the `data_` member together with the
members every variant has to define. -/
structure State (D : Type) where
  description : String
  data_ : D
  beforeTransitionImpl : D → D
  afterTransitionImpl : D → D
  validateImpl : D → D → Bool

namespace State

variable {D : Type}

/-- Member `State::setData`. -/
def setData (s : State D) (data : D) : State D := { s with data_ := data }

/-- Member `State::getData`. -/
def getData (s : State D) : D := s.data_

/-- Member `State::validate`: forwards to `validateImpl`. -/
def validate (s : State D) (data : D) : Bool := s.validateImpl s.data_ data

/-- Member `State::beforeTransition`: forwards to `beforeTransitionImpl`. -/
def beforeTransition (s : State D) : State D :=
  { s with data_ := s.beforeTransitionImpl s.data_ }

/-- Member `State::afterTransition`: forwards to `afterTransitionImpl`. -/
def afterTransition (s : State D) : State D :=
  { s with data_ := s.afterTransitionImpl s.data_ }

/-- Two values describe the same object up to the contents of `data_`: the same
description and the same three member functions. -/
def sameUpToData (s s' : State D) : Prop :=
  s.description = s'.description
  ∧ s.beforeTransitionImpl = s'.beforeTransitionImpl
  ∧ s.afterTransitionImpl = s'.afterTransitionImpl
  ∧ s.validateImpl = s'.validateImpl

end State

instance {D : Type} [Inhabited D] : Inhabited (State D) :=
  ⟨⟨"", default, id, id, fun _ _ => true⟩⟩

/-- Constant `Transition::NO`. -/
def Transition.NO : String := "no"

/-- Record `Transition`; both members default to `NO`. -/
structure Transition where
  from_ : String := Transition.NO
  to_ : String := Transition.NO
  deriving DecidableEq

/-! ### `std::unordered_map` -/

/-- Member `unordered_map::find`: `none` stands for `end()`. -/
def umFind {K V : Type} [DecidableEq K] : List (K × V) → K → Option V
  | [], _ => none
  | (k', v) :: rest, k => if k' = k then some v else umFind rest k

/-- Read through `operator[]`: the mapped value, and the map, which gains a
value-initialised entry (`dflt`) when the key was absent. -/
def umIndex {K V : Type} [DecidableEq K] (m : List (K × V)) (k : K) (dflt : V) :
    V × List (K × V) :=
  match umFind m k with
  | some v => (v, m)
  | none => (dflt, m ++ [(k, dflt)])

/-- Assignment through `operator[]`: `m[k] = v`. -/
def umAssign {K V : Type} [DecidableEq K] : List (K × V) → K → V → List (K × V)
  | [], k, v => [(k, v)]
  | (k', v') :: rest, k, v =>
    if k' = k then (k', v) :: rest else (k', v') :: umAssign rest k v

/-! ### The machine -/

/-- Class `StateMachine<ActionType, DataPack>`: its three members, and the heap
the shared pointers point into. -/
structure StateMachine (A D : Type) where
  heap : Ptr → State D
  next : Ptr
  statesMap_ : List (String × Option Ptr)
  transitionMap_ : List (A × List Transition)
  currentState_ : Option Ptr

/-- The `std::runtime_error`s of the class, one constructor per `throw`. -/
inductive Error where
  /-- "Set starting state before handleAction()! ..." and
  "Set starting state before getCurrentState()! ...". -/
  | notReady
  /-- "State must be registered first! ..." (`setStartingState`). -/
  | unregisteredState
  /-- "No transition has been registered for this action!". -/
  | noTransitionRegisteredForAction
  /-- "Current state has not been registered! State: " + description. -/
  | currentStateUnregistered (description : String)
  /-- "Current state has no registered transition for this action!". -/
  | noTransitionForCurrentState
  /-- "State: " + to + " is not registered!". -/
  | targetStateUnregistered (name : String)
  /-- "Given data are not valid for state: " + description. -/
  | validationRejected (description : String)
  deriving DecidableEq

/-- What a call either returns or raises. -/
inductive Outcome (R : Type) where
  | returned (value : R)
  | raised (e : Error)
  deriving DecidableEq

/-- The three protected virtual members of `IState`. -/
inductive Hook where
  | beforeTransition
  | validate
  | afterTransition
  deriving DecidableEq

/-- One hook invocation as it starts: which member, on which object, that
object's `data_`, the argument (for `validate`), and the machine's
`currentState_` at that moment. -/
structure HookCall (D : Type) where
  hook : Hook
  self : Ptr
  selfData : D
  arg : Option D
  current : Option Ptr
  deriving DecidableEq

/-- Result of `handleAction`: outcome, machine afterwards, hooks invoked. -/
structure Handled (A D : Type) where
  outcome : Outcome Bool
  machine : StateMachine A D
  calls : List (HookCall D)

namespace StateMachine

variable {A D : Type}

/-- Constructor `StateMachine()`: empty maps, `currentState_(nullptr)`. -/
def init [Inhabited D] : StateMachine A D :=
  { heap := fun _ => default, next := 0, statesMap_ := [], transitionMap_ := [],
    currentState_ := none }

/-- Member `setStartingState`. -/
def setStartingState (m : StateMachine A D) (stateName : String) :
    Outcome Unit × StateMachine A D :=
  match umFind m.statesMap_ stateName with
  | none => (.raised .unregisteredState, m)
  | some _ =>
    let r := umIndex m.statesMap_ stateName none
    (.returned (), { m with statesMap_ := r.2, currentState_ := r.1 })

/-- Member `registerState`: `obj` is the freshly constructed `StateType(args...)`. -/
def registerState (m : StateMachine A D) (stateName : String) (obj : State D) :
    StateMachine A D :=
  { m with
    heap := Function.update m.heap m.next obj
    next := m.next + 1
    statesMap_ := umAssign m.statesMap_ stateName (some m.next) }

/-- Member `addTransition`. -/
def addTransition [DecidableEq A] (m : StateMachine A D) (action : A) (from_ to_ : String) :
    StateMachine A D :=
  let r := umIndex m.transitionMap_ action []
  { m with transitionMap_ := umAssign r.2 action (r.1 ++ [Transition.mk from_ to_]) }

/-- The first `std::find_if` of `handleAction`: the registry entry holding
`currentState_`. -/
def findCurrentStatePair (m : StateMachine A D) : Option (String × Option Ptr) :=
  m.statesMap_.find? (fun state => decide (state.2 = m.currentState_))

/-- The second `std::find_if` of `handleAction`: the first transition whose
`from` is the name found by the first. -/
def findTransition (transitions : List Transition) (currentStatePair : String × Option Ptr) :
    Option Transition :=
  transitions.find? (fun transition => decide (currentStatePair.1 = transition.from_))

/-- Member `handleAction`. -/
def handleAction [DecidableEq A] (m : StateMachine A D) (action : A) : Handled A D :=
  match m.currentState_ with
  | none => ⟨.raised .notReady, m, []⟩
  | some cur =>
    let r := umIndex m.transitionMap_ action []
    let transitions := r.1
    let m1 := { m with transitionMap_ := r.2 }
    if transitions.isEmpty then
      ⟨.raised .noTransitionRegisteredForAction, m1, []⟩
    else
      match findCurrentStatePair m1 with
      | none => ⟨.raised (.currentStateUnregistered (m1.heap cur).description), m1, []⟩
      | some currentStatePair =>
        match findTransition transitions currentStatePair with
        | none => ⟨.raised .noTransitionForCurrentState, m1, []⟩
        | some transition =>
          if transition.to_ = Transition.NO ∨ transition.to_ = transition.from_ then
            ⟨.returned false, m1, []⟩
          else
            let c1 : HookCall D :=
              ⟨.beforeTransition, cur, (m1.heap cur).data_, none, m1.currentState_⟩
            let m2 := { m1 with heap := Function.update m1.heap cur (m1.heap cur).beforeTransition }
            let data := (m2.heap cur).getData
            let s := umIndex m2.statesMap_ transition.to_ none
            let nextState := s.1
            let m3 := { m2 with statesMap_ := s.2 }
            match nextState with
            | none => ⟨.raised (.targetStateUnregistered transition.to_), m3, [c1]⟩
            | some nxt =>
              let c2 : HookCall D :=
                ⟨.validate, nxt, (m3.heap nxt).data_, some data, m3.currentState_⟩
              if (m3.heap nxt).validate data = false then
                ⟨.raised (.validationRejected (m3.heap nxt).description), m3, [c1, c2]⟩
              else
                let m4 := { m3 with heap := Function.update m3.heap nxt ((m3.heap nxt).setData data) }
                let m5 := { m4 with currentState_ := some nxt }
                let c3 : HookCall D :=
                  ⟨.afterTransition, nxt, (m5.heap nxt).data_, none, m5.currentState_⟩
                let m6 := { m5 with heap := Function.update m5.heap nxt (m5.heap nxt).afterTransition }
                ⟨.returned true, m6, [c1, c2, c3]⟩

/-- Member `getCurrentState`. -/
def getCurrentState (m : StateMachine A D) : Outcome Ptr :=
  match m.currentState_ with
  | none => .raised .notReady
  | some p => .returned p

/-! ### Vocabulary of the claims -/

/-- The action's bucket: the list `transitionMap_[action]` yields. -/
def bucket [DecidableEq A] (m : StateMachine A D) (action : A) : List Transition :=
  (umIndex m.transitionMap_ action []).1

/-- The current state's name: the key of the entry found by the reverse lookup. -/
def currentName (m : StateMachine A D) : Option String :=
  (findCurrentStatePair m).map Prod.fst

/-- The matched record: the first record of the action's bucket whose `from` is
the current state's name. -/
def matched [DecidableEq A] (m : StateMachine A D) (action : A) : Option Transition :=
  (findCurrentStatePair m).bind (findTransition (bucket m action))

/-- The heap once `beforeTransition` has run on the object at `cur`. -/
def heapAfterLeave (m : StateMachine A D) (cur : Ptr) : Ptr → State D :=
  Function.update m.heap cur (m.heap cur).beforeTransition

/-- Several `addTransition` calls in a row, in list order. -/
def addTransitions [DecidableEq A] (m : StateMachine A D) :
    List (A × String × String) → StateMachine A D
  | [] => m
  | (action, from_, to_) :: rest => addTransitions (addTransition m action from_ to_) rest

/-- One call of a mutating member, with its arguments. -/
inductive Call (A D : Type) where
  | registerState (stateName : String) (obj : State D)
  | addTransition (action : A) (from_ to_ : String)
  | setStartingState (stateName : String)
  | handleAction (action : A)

/-- The machine a call leaves behind, whether the call returns or raises. -/
def Call.apply [DecidableEq A] (m : StateMachine A D) : Call A D → StateMachine A D
  | .registerState stateName obj => m.registerState stateName obj
  | .addTransition action from_ to_ => m.addTransition action from_ to_
  | .setStartingState stateName => (m.setStartingState stateName).2
  | .handleAction action => (m.handleAction action).machine

/-- The machine after a sequence of calls, made in list order. -/
def after [DecidableEq A] (m : StateMachine A D) : List (Call A D) → StateMachine A D
  | [] => m
  | c :: rest => after (c.apply m) rest

/-- The machines a caller can obtain from a fresh machine by a sequence of calls,
each of which satisfies `allowed` in the machine it is made on. -/
inductive Reachable [Inhabited D] [DecidableEq A]
    (allowed : StateMachine A D → Call A D → Prop) : StateMachine A D → Prop where
  | init : Reachable allowed init
  | call {m : StateMachine A D} (c : Call A D) :
      Reachable allowed m → allowed m c → Reachable allowed (c.apply m)

/-- No restriction on the calls. -/
def anyCall : StateMachine A D → Call A D → Prop := fun _ _ => True

/-- Histories in which `registerState` is never called with `stateName`. -/
def withoutRegistering (stateName : String) : StateMachine A D → Call A D → Prop :=
  fun _ c =>
    match c with
    | .registerState n _ => n ≠ stateName
    | _ => True

/-- Histories in which `addTransition` is never called with `action`. -/
def withoutDeclaring (action : A) : StateMachine A D → Call A D → Prop :=
  fun _ c =>
    match c with
    | .addTransition a _ _ => a ≠ action
    | _ => True

/-- Histories in which no `setStartingState` call has succeeded: each one made
so far has raised. -/
def beforeStart : StateMachine A D → Call A D → Prop :=
  fun m c =>
    match c with
    | .setStartingState n => (m.setStartingState n).1 ≠ .returned ()
    | _ => True

/-- Calls after which the program is still running: `setStartingState` and
`handleAction` are declared `throw()`, so the call has returned. -/
def returning [DecidableEq A] : StateMachine A D → Call A D → Prop :=
  fun m c =>
    match c with
    | .setStartingState n => (m.setStartingState n).1 = .returned ()
    | .handleAction a =>
      (m.handleAction a).outcome = .returned true ∨ (m.handleAction a).outcome = .returned false
    | _ => True

/-- Histories of a running program in which `registerState` is never called
with `stateName`. -/
def returningWithoutRegistering [DecidableEq A] (stateName : String) :
    StateMachine A D → Call A D → Prop :=
  fun m c => returning m c ∧ withoutRegistering stateName m c

/-- Every call of the sequence returns in the machine it is made on. -/
def allReturn [DecidableEq A] (m : StateMachine A D) : List (Call A D) → Prop
  | [] => True
  | c :: rest => returning m c ∧ allReturn (c.apply m) rest

/-- Registry invariant of a running program: no name is bound to a null
pointer. -/
def NoNullEntry (m : StateMachine A D) : Prop := ∀ n, (n, none) ∉ m.statesMap_

/-- Registry invariant: every object address held by the machine was handed out
by an earlier `make_shared`, and no object is registered under two names. -/
structure WellFormed (m : StateMachine A D) : Prop where
  mapBelow : ∀ n p, (n, some p) ∈ m.statesMap_ → p < m.next
  currentBelow : ∀ p, m.currentState_ = some p → p < m.next
  distinct : ∀ n₁ n₂ p, (n₁, some p) ∈ m.statesMap_ → (n₂, some p) ∈ m.statesMap_ → n₁ = n₂

/-- Registry invariant: no name occurs twice among the keys of the registry. -/
def UniqueKeys (m : StateMachine A D) : Prop := (m.statesMap_.map Prod.fst).Nodup

/-- The name a call registers, if it is a `registerState` call. -/
def Call.registers : Call A D → Option String
  | .registerState stateName _ => some stateName
  | _ => none

/-- Whether a call is a `setStartingState` call. -/
def Call.isStart : Call A D → Bool
  | .setStartingState _ => true
  | _ => false

/-- The results of handling a sequence of actions, one after the other. -/
def run [DecidableEq A] (m : StateMachine A D) : List A → List (Handled A D)
  | [] => []
  | action :: rest => handleAction m action :: run (handleAction m action).machine rest

/-- The machine after handling a sequence of actions. -/
def afterActions [DecidableEq A] (m : StateMachine A D) : List A → StateMachine A D
  | [] => m
  | action :: rest => afterActions (handleAction m action).machine rest

/-- The description of the current state, as `getCurrentState()->description()`. -/
def currentDescription (m : StateMachine A D) : Option String :=
  m.currentState_.map (fun p => (m.heap p).description)

/-! ### The pure transition function of the refinement claim -/

/-- Follows the claim's wording: the first record in the action's bucket with
`from = n`. -/
def firstRecord (table : A → List Transition) (action : A) (n : String) : Option Transition :=
  (table action).find? (fun t => decide (t.from_ = n))

/-- Follows the claim's wording: `delta(a, n)` is `n` when the first record in
`a`'s bucket with `from = n` has `to = NO` or `to = n`, and that record's `to`
otherwise.  (Where the bucket has no such record the claim leaves `delta`
open; `n` is returned.) -/
def delta (table : A → List Transition) (action : A) (n : String) : String :=
  match firstRecord table action n with
  | some t => if t.to_ = Transition.NO ∨ t.to_ = n then n else t.to_
  | none => n

/-- Follows the claim's wording: the call returns true exactly when that
record's `to` is neither `NO` nor `from`. -/
def moves (table : A → List Transition) (action : A) (n : String) : Bool :=
  match firstRecord table action n with
  | some t => decide (t.to_ ≠ Transition.NO ∧ t.to_ ≠ t.from_)
  | none => false

/-- Follows the claim's wording: the iterated `delta` from a starting name, with
the predicted return value of each call. -/
def deltaRun (table : A → List Transition) (n : String) : List A → List (String × Bool)
  | [] => []
  | action :: rest =>
    (delta table action n, moves table action n) :: deltaRun table (delta table action n) rest

end StateMachine

/-! ### A small machine used to instantiate the theorems -/

namespace Demo

open StateMachine

/-- Actions of the demonstration machine. -/
inductive Action where
  | X | Y | S | T | V | W
  deriving DecidableEq

/-- State `A`: `beforeTransitionImpl` increments the data; accepts any data. -/
def A : State Nat := ⟨"A", 0, fun d => d + 1, id, fun _ _ => true⟩

/-- State `B`: `afterTransitionImpl` adds ten; accepts data below five. -/
def B : State Nat := ⟨"B", 0, id, fun d => d + 10, fun _ d => decide (d < 5)⟩

/-- State `C`: accepts only zero. -/
def C : State Nat := ⟨"C", 0, id, id, fun _ d => decide (d = 0)⟩

/-- The three states registered under their names: `A` at 0, `B` at 1, `C` at 2. -/
def registered : StateMachine Action Nat :=
  registerState (registerState (registerState init "A" A) "B" B) "C" C

/-- The transition table: `X` is `A→B`, `B→C`, `C→NO`; `Y` leads from `A` to the
unregistered `Z`; `S` is a self-loop on `A` and on `B`; `T` is `A→C`; `W` is
declared from `B` only; nothing is declared for `V`. -/
def declared : StateMachine Action Nat :=
  addTransitions registered
    [(.X, "A", "B"), (.X, "B", "C"), (.X, "C", Transition.NO), (.Y, "A", "Z"),
     (.S, "A", "A"), (.T, "A", "C"), (.W, "B", "A"), (.S, "B", "B")]

/-- The machine started at `A`. -/
def started : StateMachine Action Nat := (setStartingState declared "A").2

/-- The machine after `handleAction(X)` in `started`: `B` is current and holds
the data 11. -/
def atB : StateMachine Action Nat := (handleAction started .X).machine

/-- A machine with states and transitions on which `setStartingState` was only
called with the unknown name `Q`, and `handleAction(X)` was then attempted. -/
def unstarted : StateMachine Action Nat :=
  (handleAction (setStartingState declared "Q").2 .X).machine

/-- The three states registered and `A` made current; no transition declared. -/
def bare : StateMachine Action Nat := (setStartingState registered "A").2

/-- Two declarations for `(X, A)`: first `A→B`, then `A→C`. -/
def duplicated : StateMachine Action Nat :=
  after (addTransition bare .X "A" "B") [.addTransition .X "A" "C"]

end Demo

/-! ### The example of the specification: `A→B`, `B→C`, `C→NO` -/

namespace Abc

open StateMachine

/-- A state without data whose hooks do nothing and whose validator accepts. -/
def plain (description : String) : State Unit :=
  ⟨description, (), id, id, fun _ _ => true⟩

/-- States `A`, `B`, `C` registered, action `X` declared as `A→B`, `B→C`,
`C→NO`, started at `A`. The one action is `()`. -/
def machine : StateMachine Unit Unit :=
  after init
    [.registerState "A" (plain "A"), .registerState "B" (plain "B"),
     .registerState "C" (plain "C"),
     .addTransition () "A" "B", .addTransition () "B" "C",
     .addTransition () "C" Transition.NO,
     .setStartingState "A"]

end Abc

/-! ### The test fixture (test/src/StateMachineTests.cpp) -/

namespace Fixture

open StateMachine

/-- Enumeration `TestAction`. -/
inductive TestAction where
  | ONE | TWO | THREE | FOUR | FIVE
  deriving DecidableEq

/-- The four test states: `TestData` is empty, the hooks do nothing, the
validator accepts; they differ in their description. -/
def testState (description : String) : State Unit :=
  ⟨description, (), id, id, fun _ _ => true⟩

/-- Fixture member `registerStates`. -/
def registerStates : List (Call TestAction Unit) :=
  [.registerState "teststate1" (testState "TestState1"),
   .registerState "teststate2" (testState "TestState2"),
   .registerState "teststate3" (testState "TestState3"),
   .registerState "teststate4" (testState "TestState4")]

/-- Fixture member `setTransitions`. -/
def setTransitions : List (Call TestAction Unit) :=
  [.addTransition .ONE "teststate1" "teststate2",
   .addTransition .ONE "teststate2" "teststate3",
   .addTransition .ONE "teststate3" "teststate4",
   .addTransition .ONE "teststate4" "teststate1",
   .addTransition .TWO "teststate1" Transition.NO,
   .addTransition .TWO "teststate2" Transition.NO,
   .addTransition .TWO "teststate3" Transition.NO,
   .addTransition .TWO "teststate4" Transition.NO,
   .addTransition .THREE "teststate1" "teststate2",
   .addTransition .THREE "teststate2" "teststate1",
   .addTransition .THREE "teststate3" "teststate2",
   .addTransition .THREE "teststate4" "teststate1",
   .addTransition .FOUR "teststate1" "teststate3",
   .addTransition .FOUR "teststate2" "teststate4",
   .addTransition .FOUR "teststate3" "teststate4",
   .addTransition .FOUR "teststate4" "teststate2",
   .addTransition .FIVE "teststate1" "teststate1",
   .addTransition .FIVE "teststate2" "teststate434324"]

/-- The machine of `SetStartingState_SUCCESS`: `setStartingState("teststate1")`
of the fixture, which registers the states first. -/
def startedOnly : StateMachine TestAction Unit :=
  after init (registerStates ++ [.setStartingState "teststate1"])

/-- The calls `TestTransitions_StartingTestState1` makes before its first
action: `setStartingState("teststate1")` of the fixture, then `setTransitions`. -/
def calls : List (Call TestAction Unit) :=
  registerStates ++ [.setStartingState "teststate1"] ++ setTransitions

/-- The machine of `TestTransitions_StartingTestState1` before its first
action. -/
def machine : StateMachine TestAction Unit := after init calls

/-- The twenty actions of `TestTransitions_StartingTestState1`, in order. -/
def actions : List TestAction :=
  [.ONE, .ONE, .ONE, .ONE, .TWO, .TWO, .TWO, .TWO, .THREE, .THREE, .THREE, .THREE,
   .FOUR, .FOUR, .FOUR, .FOUR, .ONE, .TWO, .THREE, .FOUR]

/-- The descriptions the test expects after each of these actions. -/
def expected : List String :=
  ["TestState2", "TestState3", "TestState4", "TestState1",
   "TestState1", "TestState1", "TestState1", "TestState1",
   "TestState2", "TestState1", "TestState2", "TestState1",
   "TestState3", "TestState4", "TestState2", "TestState4",
   "TestState1", "TestState1", "TestState2", "TestState4"]

end Fixture

/-! ### The washing machine (examples/StateMachine/main.cpp) -/

namespace WashingExample

open StateMachine

/-- Record `WashingData`. -/
structure WashingData where
  isWaterInDrum : Bool := false
  deriving DecidableEq

instance : Inhabited WashingData := ⟨{}⟩

/-- Enumeration `WashingAction`. -/
inductive WashingAction where
  | BUTTON_WASH_PRESSED
  | BUTTON_DRY_PRESSED
  | BUTTON_FINISH_PRESSED
  deriving DecidableEq

/-- Constant `IDLE`. -/
def IDLE : String := "IDLE"

/-- Constant `WASHING`. -/
def WASHING : String := "WASHING"

/-- Constant `DRYING`. -/
def DRYING : String := "DRYING"

/-- State `Idle`: accepts data without water in the drum. -/
def Idle : State WashingData :=
  ⟨IDLE, {}, id, id, fun _ data => data.isWaterInDrum == false⟩

/-- State `Washing`: `beforeTransitionImpl` sets the water to false,
`afterTransitionImpl` sets it to true; accepts any data. -/
def Washing : State WashingData :=
  ⟨WASHING, {}, fun _ => ⟨false⟩, fun _ => ⟨true⟩, fun _ _ => true⟩

/-- State `Drying`: accepts data without water in the drum. -/
def Drying : State WashingData :=
  ⟨DRYING, {}, id, id, fun _ data => data.isWaterInDrum == false⟩

/-- The machine `main` builds before it handles the action queue. -/
def washingMachine : StateMachine WashingAction WashingData :=
  after init
    [.registerState IDLE Idle, .registerState WASHING Washing, .registerState DRYING Drying,
     .setStartingState IDLE,
     .addTransition .BUTTON_WASH_PRESSED IDLE WASHING,
     .addTransition .BUTTON_WASH_PRESSED WASHING Transition.NO,
     .addTransition .BUTTON_WASH_PRESSED DRYING Transition.NO,
     .addTransition .BUTTON_DRY_PRESSED IDLE DRYING,
     .addTransition .BUTTON_DRY_PRESSED WASHING Transition.NO,
     .addTransition .BUTTON_DRY_PRESSED DRYING Transition.NO,
     .addTransition .BUTTON_FINISH_PRESSED IDLE Transition.NO,
     .addTransition .BUTTON_FINISH_PRESSED WASHING IDLE,
     .addTransition .BUTTON_FINISH_PRESSED DRYING IDLE]

/-- The list `actionQueue` of `main`. -/
def actionQueue : List WashingAction :=
  [.BUTTON_WASH_PRESSED, .BUTTON_FINISH_PRESSED, .BUTTON_DRY_PRESSED, .BUTTON_FINISH_PRESSED]

end WashingExample

/-! ### A machine with a state registered under the name `no` -/

namespace NoState

open StateMachine

/-- The calls: states registered under `A` and under `no` (the value of
`Transition::NO`), the record `A→no` declared for the one action `()`, and `A`
made current. The hooks do nothing and the validators accept. -/
def calls : List (Call Unit Unit) :=
  [.registerState "A" (Abc.plain "A"), .registerState "no" (Abc.plain "no"),
   .addTransition () "A" "no", .setStartingState "A"]

/-- The machine after these calls: `A` is the object at 0, `no` the object at 1. -/
def machine : StateMachine Unit Unit := after init calls

end NoState

/-! ## Theorems -/

namespace StateMachine

variable {A D : Type}

/-! ### The unordered map -/

theorem umIndex_of_find_some {K V : Type} [DecidableEq K] {m : List (K × V)} {k : K} {v : V}
    (h : umFind m k = some v) (dflt : V) : umIndex m k dflt = (v, m) := by
  simp [umIndex, h]

theorem umIndex_of_find_none {K V : Type} [DecidableEq K] {m : List (K × V)} {k : K}
    (h : umFind m k = none) (dflt : V) : umIndex m k dflt = (dflt, m ++ [(k, dflt)]) := by
  simp [umIndex, h]

/-- A non-empty bucket is stored in the map, so reading it inserts nothing. -/
theorem umIndex_snd_of_ne_nil {K V : Type} [DecidableEq K] {m : List (K × List V)} {k : K}
    (h : (umIndex m k []).1 ≠ []) : (umIndex m k []).2 = m := by
  unfold umIndex at h ⊢
  cases hf : umFind m k with
  | none => simp [hf] at h
  | some v => simp

/-! ### The paths through `handleAction` -/

theorem matched_iff [DecidableEq A] {m : StateMachine A D} {action : A} {t : Transition} :
    matched m action = some t ↔
      ∃ pair, findCurrentStatePair m = some pair ∧
        findTransition (bucket m action) pair = some t := by
  simp [matched, Option.bind_eq_some]

theorem bucket_ne_nil_of_findTransition [DecidableEq A] {m : StateMachine A D} {action : A}
    {pair : String × Option Ptr} {t : Transition}
    (h : findTransition (bucket m action) pair = some t) : bucket m action ≠ [] := by
  intro hnil
  simp [hnil, findTransition] at h

theorem bucket_ne_nil_of_matched [DecidableEq A] {m : StateMachine A D} {action : A}
    {t : Transition} (h : matched m action = some t) : bucket m action ≠ [] := by
  obtain ⟨pair, -, htr⟩ := matched_iff.mp h
  exact bucket_ne_nil_of_findTransition htr

/-- Path 1: no starting state. -/
theorem handleAction_notReady [DecidableEq A] (m : StateMachine A D) (action : A)
    (h : m.currentState_ = none) : handleAction m action = ⟨.raised .notReady, m, []⟩ := by
  simp [handleAction, h]

/-- Path 2: the bucket of the action is empty. -/
theorem handleAction_emptyBucket [DecidableEq A] (m : StateMachine A D) (action : A) (cur : Ptr)
    (hready : m.currentState_ = some cur) (hb : bucket m action = []) :
    handleAction m action =
      ⟨.raised .noTransitionRegisteredForAction,
        { m with transitionMap_ := (umIndex m.transitionMap_ action []).2 }, []⟩ := by
  simp only [bucket] at hb
  simp [handleAction, hready, hb]

/-- Path 3: no registry entry holds the current object. -/
theorem handleAction_currentUnregistered [DecidableEq A] (m : StateMachine A D) (action : A)
    (cur : Ptr) (hready : m.currentState_ = some cur) (hb : bucket m action ≠ [])
    (hpair : findCurrentStatePair m = none) :
    handleAction m action =
      ⟨.raised (.currentStateUnregistered (m.heap cur).description), m, []⟩ := by
  have hsnd := umIndex_snd_of_ne_nil hb
  obtain ⟨heap, next, sm, tm, cs⟩ := m
  simp only at hready
  subst hready
  simp only [bucket, findCurrentStatePair] at hb hsnd hpair
  simp only [handleAction, findCurrentStatePair, hsnd, List.isEmpty_iff, hb, if_false, hpair]

/-- Path 4: the bucket has no record for the current state's name. -/
theorem handleAction_noTransition [DecidableEq A] (m : StateMachine A D) (action : A)
    (cur : Ptr) (pair : String × Option Ptr)
    (hready : m.currentState_ = some cur) (hb : bucket m action ≠ [])
    (hpair : findCurrentStatePair m = some pair)
    (htr : findTransition (bucket m action) pair = none) :
    handleAction m action = ⟨.raised .noTransitionForCurrentState, m, []⟩ := by
  have hsnd := umIndex_snd_of_ne_nil hb
  obtain ⟨heap, next, sm, tm, cs⟩ := m
  simp only at hready
  subst hready
  simp only [bucket, findCurrentStatePair] at hb hsnd hpair htr
  simp only [handleAction, findCurrentStatePair, hsnd, List.isEmpty_iff, hb, if_false, hpair, htr]

/-- Path 5: the matched record declares that nothing happens. -/
theorem handleAction_noop [DecidableEq A] (m : StateMachine A D) (action : A)
    (cur : Ptr) (t : Transition)
    (hready : m.currentState_ = some cur) (hmatch : matched m action = some t)
    (hnoop : t.to_ = Transition.NO ∨ t.to_ = t.from_) :
    handleAction m action = ⟨.returned false, m, []⟩ := by
  obtain ⟨pair, hpair, htr⟩ := matched_iff.mp hmatch
  have hb := bucket_ne_nil_of_findTransition htr
  have hsnd := umIndex_snd_of_ne_nil hb
  obtain ⟨heap, next, sm, tm, cs⟩ := m
  simp only at hready
  subst hready
  simp only [bucket, findCurrentStatePair] at hb hsnd hpair htr
  simp only [handleAction, findCurrentStatePair, hsnd, List.isEmpty_iff, hb, if_false, hpair, htr,
    hnoop, if_true]

/-- Path 6: the target name yields a null pointer. -/
theorem handleAction_targetUnregistered [DecidableEq A] (m : StateMachine A D) (action : A)
    (cur : Ptr) (t : Transition)
    (hready : m.currentState_ = some cur) (hmatch : matched m action = some t)
    (hno : t.to_ ≠ Transition.NO) (hself : t.to_ ≠ t.from_)
    (hnull : (umIndex m.statesMap_ t.to_ none).1 = none) :
    handleAction m action =
      ⟨.raised (.targetStateUnregistered t.to_),
        { m with heap := heapAfterLeave m cur
                 statesMap_ := (umIndex m.statesMap_ t.to_ none).2 },
        [⟨.beforeTransition, cur, (m.heap cur).data_, none, some cur⟩]⟩ := by
  obtain ⟨pair, hpair, htr⟩ := matched_iff.mp hmatch
  have hb := bucket_ne_nil_of_findTransition htr
  have hsnd := umIndex_snd_of_ne_nil hb
  obtain ⟨heap, next, sm, tm, cs⟩ := m
  simp only at hready
  subst hready
  simp only [bucket, findCurrentStatePair] at hb hsnd hpair htr hnull
  simp only [handleAction, findCurrentStatePair, hsnd, List.isEmpty_iff, hb, if_false, hpair, htr,
    hno, hself, or_self, hnull, heapAfterLeave]

/-- Path 7: the target's validator rejects the data. -/
theorem handleAction_rejected [DecidableEq A] (m : StateMachine A D) (action : A)
    (cur nxt : Ptr) (t : Transition)
    (hready : m.currentState_ = some cur) (hmatch : matched m action = some t)
    (hno : t.to_ ≠ Transition.NO) (hself : t.to_ ≠ t.from_)
    (hreg : umFind m.statesMap_ t.to_ = some (some nxt))
    (hval : (heapAfterLeave m cur nxt).validate (heapAfterLeave m cur cur).data_ = false) :
    handleAction m action =
      ⟨.raised (.validationRejected (heapAfterLeave m cur nxt).description),
        { m with heap := heapAfterLeave m cur },
        [⟨.beforeTransition, cur, (m.heap cur).data_, none, some cur⟩,
         ⟨.validate, nxt, (heapAfterLeave m cur nxt).data_,
           some (heapAfterLeave m cur cur).data_, some cur⟩]⟩ := by
  obtain ⟨pair, hpair, htr⟩ := matched_iff.mp hmatch
  have hb := bucket_ne_nil_of_findTransition htr
  have hsnd := umIndex_snd_of_ne_nil hb
  obtain ⟨heap, next, sm, tm, cs⟩ := m
  simp only at hready
  subst hready
  simp only [bucket, findCurrentStatePair] at hb hsnd hpair htr hreg
  simp only [heapAfterLeave] at hval
  simp only [handleAction, findCurrentStatePair, hsnd, List.isEmpty_iff, hb, if_false, hpair, htr,
    hno, hself, or_self, umIndex_of_find_some hreg, heapAfterLeave, State.getData, hval, if_true]

/-- Path 8: the transition is made. -/
theorem handleAction_success [DecidableEq A] (m : StateMachine A D) (action : A)
    (cur nxt : Ptr) (t : Transition)
    (hready : m.currentState_ = some cur) (hmatch : matched m action = some t)
    (hno : t.to_ ≠ Transition.NO) (hself : t.to_ ≠ t.from_)
    (hreg : umFind m.statesMap_ t.to_ = some (some nxt))
    (hval : (heapAfterLeave m cur nxt).validate (heapAfterLeave m cur cur).data_ = true) :
    handleAction m action =
      ⟨.returned true,
        { m with
          heap := Function.update (heapAfterLeave m cur) nxt
            (((heapAfterLeave m cur nxt).setData (heapAfterLeave m cur cur).data_).afterTransition)
          currentState_ := some nxt },
        [⟨.beforeTransition, cur, (m.heap cur).data_, none, some cur⟩,
         ⟨.validate, nxt, (heapAfterLeave m cur nxt).data_,
           some (heapAfterLeave m cur cur).data_, some cur⟩,
         ⟨.afterTransition, nxt, (heapAfterLeave m cur cur).data_, none, some nxt⟩]⟩ := by
  obtain ⟨pair, hpair, htr⟩ := matched_iff.mp hmatch
  have hb := bucket_ne_nil_of_findTransition htr
  have hsnd := umIndex_snd_of_ne_nil hb
  obtain ⟨heap, next, sm, tm, cs⟩ := m
  simp only at hready
  subst hready
  simp only [bucket, findCurrentStatePair] at hb hsnd hpair htr hreg
  simp only [heapAfterLeave] at hval
  simp [handleAction, findCurrentStatePair, hsnd, hb, hpair, htr,
    hno, hself, umIndex_of_find_some hreg, heapAfterLeave, State.getData, State.setData]
  simpa using hval


/-! ### Registry invariant of reachable machines -/

theorem umFind_mem {K V : Type} [DecidableEq K] {l : List (K × V)} {k : K} {v : V}
    (h : umFind l k = some v) : (k, v) ∈ l := by
  induction l with
  | nil => simp [umFind] at h
  | cons e rest ih =>
    obtain ⟨k', v'⟩ := e
    by_cases hk : k' = k
    · simp [umFind, hk] at h
      simp [hk, h]
    · simp [umFind, hk] at h
      exact List.mem_cons_of_mem _ (ih h)

theorem mem_umAssign {K V : Type} [DecidableEq K] {l : List (K × V)} {k : K} {v : V}
    {e : K × V} (h : e ∈ umAssign l k v) : e = (k, v) ∨ e ∈ l := by
  induction l with
  | nil => simpa [umAssign] using h
  | cons e' rest ih =>
    obtain ⟨k', v'⟩ := e'
    by_cases hk : k' = k
    · simp [umAssign, hk] at h
      rcases h with h | h
      · exact Or.inl h
      · exact Or.inr (List.mem_cons_of_mem _ h)
    · simp [umAssign, hk] at h
      rcases h with h | h
      · exact Or.inr (by simp [h])
      · rcases ih h with h' | h'
        · exact Or.inl h'
        · exact Or.inr (List.mem_cons_of_mem _ h')

theorem mem_umIndex_snd {K V : Type} [DecidableEq K] {l : List (K × V)} {k : K} {dflt : V}
    {e : K × V} (h : e ∈ (umIndex l k dflt).2) : e ∈ l ∨ e = (k, dflt) := by
  unfold umIndex at h
  cases hf : umFind l k with
  | none => simpa [hf] using h
  | some v => left; simpa [hf] using h

theorem umIndex_fst_mem {K V : Type} [DecidableEq K] {l : List (K × Option V)} {k : K} {p : V}
    (h : (umIndex l k none).1 = some p) : umFind l k = some (some p) := by
  unfold umIndex at h
  cases hf : umFind l k with
  | none => simp [hf] at h
  | some v => simp [hf] at h; simp [h]

theorem handleAction_next [DecidableEq A] (m : StateMachine A D) (action : A) :
    (handleAction m action).machine.next = m.next := by
  simp only [handleAction]
  repeat' split
  all_goals rfl

theorem handleAction_statesMap [DecidableEq A] (m : StateMachine A D) (action : A) :
    (handleAction m action).machine.statesMap_ = m.statesMap_ ∨
      ∃ k, (handleAction m action).machine.statesMap_ = (umIndex m.statesMap_ k none).2 := by
  simp only [handleAction]
  repeat' split
  all_goals first
    | exact Or.inl rfl
    | exact Or.inr ⟨_, rfl⟩

theorem handleAction_current [DecidableEq A] (m : StateMachine A D) (action : A) :
    (handleAction m action).machine.currentState_ = m.currentState_ ∨
      ∃ k p, umFind m.statesMap_ k = some (some p) ∧
        (handleAction m action).machine.currentState_ = some p := by
  simp only [handleAction]
  repeat' split
  all_goals first
    | exact Or.inl rfl
    | exact Or.inr ⟨_, _, umIndex_fst_mem (by assumption), rfl⟩

theorem wellFormed_init [Inhabited D] : WellFormed (init : StateMachine A D) :=
  ⟨by simp [init], by simp [init], by simp [init]⟩

theorem wellFormed_registerState {m : StateMachine A D} (h : WellFormed m) (stateName : String)
    (obj : State D) : WellFormed (registerState m stateName obj) := by
  have key : ∀ n p, (n, some p) ∈ umAssign m.statesMap_ stateName (some m.next) →
      (n = stateName ∧ p = m.next) ∨ ((n, some p) ∈ m.statesMap_ ∧ p < m.next) := by
    intro n p hmem
    rcases mem_umAssign hmem with heq | hold
    · left; simpa using heq
    · exact Or.inr ⟨hold, h.mapBelow n p hold⟩
  refine ⟨?_, ?_, ?_⟩
  · intro n p hmem
    rcases key n p hmem with ⟨-, hp⟩ | ⟨-, hp⟩
    · simp [registerState, hp]
    · exact Nat.lt_succ_of_lt hp
  · intro p hp
    exact Nat.lt_succ_of_lt (h.currentBelow p hp)
  · intro n₁ n₂ p h₁ h₂
    rcases key n₁ p h₁ with ⟨e₁, hp₁⟩ | ⟨o₁, hp₁⟩ <;> rcases key n₂ p h₂ with ⟨e₂, hp₂⟩ | ⟨o₂, hp₂⟩
    · rw [e₁, e₂]
    · exact absurd (hp₁ ▸ hp₂) (Nat.lt_irrefl _)
    · exact absurd (hp₂ ▸ hp₁) (Nat.lt_irrefl _)
    · exact h.distinct n₁ n₂ p o₁ o₂

theorem wellFormed_addTransition [DecidableEq A] {m : StateMachine A D} (h : WellFormed m)
    (action : A) (from_ to_ : String) : WellFormed (addTransition m action from_ to_) :=
  ⟨h.mapBelow, h.currentBelow, h.distinct⟩

theorem wellFormed_setStartingState {m : StateMachine A D} (h : WellFormed m)
    (stateName : String) : WellFormed (setStartingState m stateName).2 := by
  unfold setStartingState
  cases hf : umFind m.statesMap_ stateName with
  | none => simpa using h
  | some v =>
    simp only [umIndex_of_find_some hf]
    refine ⟨h.mapBelow, ?_, h.distinct⟩
    intro p hp
    simp only at hp
    exact h.mapBelow stateName p (umFind_mem (hp ▸ hf))

theorem wellFormed_handleAction [DecidableEq A] {m : StateMachine A D} (h : WellFormed m)
    (action : A) : WellFormed (handleAction m action).machine := by
  have hsub : ∀ n p, (n, some p) ∈ (handleAction m action).machine.statesMap_ →
      (n, some p) ∈ m.statesMap_ := by
    intro n p hmem
    rcases handleAction_statesMap m action with heq | ⟨k, heq⟩
    · rwa [heq] at hmem
    · rw [heq] at hmem
      rcases mem_umIndex_snd hmem with hold | hnew
      · exact hold
      · simp at hnew
  refine ⟨?_, ?_, ?_⟩
  · intro n p hmem
    rw [handleAction_next]
    exact h.mapBelow n p (hsub n p hmem)
  · intro p hp
    rw [handleAction_next]
    rcases handleAction_current m action with heq | ⟨k, q, hk, heq⟩
    · exact h.currentBelow p (heq ▸ hp)
    · rw [heq] at hp
      have hqp : q = p := by simpa using hp
      exact hqp ▸ h.mapBelow k q (umFind_mem hk)
  · intro n₁ n₂ p h₁ h₂
    exact h.distinct n₁ n₂ p (hsub n₁ p h₁) (hsub n₂ p h₂)

/-- Every machine a caller can obtain satisfies the registry invariant. -/
theorem Reachable.wellFormed [Inhabited D] [DecidableEq A]
    {allowed : StateMachine A D → Call A D → Prop} {m : StateMachine A D}
    (h : Reachable allowed m) : WellFormed m := by
  induction h with
  | init => exact wellFormed_init
  | call c _ _ ih =>
    cases c with
    | registerState stateName obj => exact wellFormed_registerState ih stateName obj
    | addTransition action from_ to_ => exact wellFormed_addTransition ih action from_ to_
    | setStartingState stateName => exact wellFormed_setStartingState ih stateName
    | handleAction action => exact wellFormed_handleAction ih action

theorem find?_mem_pred {α : Type} {p : α → Bool} {l : List α} {a : α}
    (h : l.find? p = some a) : a ∈ l ∧ p a = true :=
  ⟨List.mem_of_find?_eq_some h, List.find?_some h⟩

/-- In a well-formed machine the target of a matched record that leaves its
source is another object than the current one. -/
theorem target_ne_current [DecidableEq A] {m : StateMachine A D} (hwf : WellFormed m)
    {action : A} {cur nxt : Ptr} {t : Transition}
    (hready : m.currentState_ = some cur) (hmatch : matched m action = some t)
    (hself : t.to_ ≠ t.from_) (hreg : umFind m.statesMap_ t.to_ = some (some nxt)) :
    nxt ≠ cur := by
  obtain ⟨pair, hpair, htr⟩ := matched_iff.mp hmatch
  obtain ⟨hmem, hp⟩ := find?_mem_pred hpair
  obtain ⟨-, hq⟩ := find?_mem_pred htr
  simp only [decide_eq_true_eq] at hp hq
  intro heq
  subst heq
  obtain ⟨name, ptr⟩ := pair
  simp only at hp hq
  rw [hready] at hp
  subst hp
  exact hself ((hwf.distinct _ _ nxt (umFind_mem hreg) hmem).trans hq)

/-! ### Lookups after the map operations -/

theorem umFind_append {K V : Type} [DecidableEq K] (l l' : List (K × V)) (k : K) :
    umFind (l ++ l') k = (umFind l k).or (umFind l' k) := by
  induction l with
  | nil => cases h : umFind l' k <;> simp [umFind, Option.or, h]
  | cons e rest ih =>
    obtain ⟨k', v'⟩ := e
    by_cases hk : k' = k
    · simp [umFind, hk, Option.or]
    · simp [umFind, hk, ih]

theorem umFind_umAssign {K V : Type} [DecidableEq K] (l : List (K × V)) (k k' : K) (v : V) :
    umFind (umAssign l k v) k' = if k = k' then some v else umFind l k' := by
  induction l with
  | nil => simp [umAssign, umFind]
  | cons e rest ih =>
    obtain ⟨k₀, v₀⟩ := e
    by_cases h₀ : k₀ = k
    · subst h₀
      by_cases h : k₀ = k' <;> simp [umAssign, umFind, h]
    · by_cases h : k₀ = k'
      · subst h
        have hne : ¬ k = k₀ := fun e => h₀ e.symm
        simp [umAssign, umFind, h₀, hne]
      · simp [umAssign, umFind, h₀, h, ih]

theorem umIndex_fst {K V : Type} [DecidableEq K] (l : List (K × V)) (k : K) (dflt : V) :
    (umIndex l k dflt).1 = (umFind l k).getD dflt := by
  unfold umIndex
  cases umFind l k <;> rfl

theorem umFind_umIndex_snd {K V : Type} [DecidableEq K] (l : List (K × V)) (k k' : K)
    (dflt : V) :
    umFind (umIndex l k dflt).2 k' =
      if k = k' then some ((umFind l k).getD dflt) else umFind l k' := by
  unfold umIndex
  cases hf : umFind l k with
  | some v =>
    by_cases h : k = k'
    · subst h; simp [hf]
    · simp [h]
  | none =>
    by_cases h : k = k'
    · subst h; simp [umFind_append, hf, umFind, Option.or]
    · cases hf' : umFind l k' <;> simp [umFind_append, umFind, h, Option.or, hf']

/-- Reading a bucket through `operator[]` does not change what any bucket holds. -/
theorem umIndex_fst_umIndex_snd {K V : Type} [DecidableEq K] (l : List (K × List V))
    (k k' : K) : (umIndex (umIndex l k []).2 k' []).1 = (umIndex l k' []).1 := by
  simp only [umIndex_fst, umFind_umIndex_snd]
  by_cases h : k = k'
  · subst h; cases umFind l k <;> simp
  · simp [h]

theorem bucket_addTransition [DecidableEq A] (m : StateMachine A D) (action action' : A)
    (from_ to_ : String) :
    bucket (addTransition m action from_ to_) action' =
      if action = action' then bucket m action ++ [Transition.mk from_ to_]
      else bucket m action' := by
  simp only [bucket, addTransition, umIndex_fst, umFind_umAssign, umFind_umIndex_snd]
  by_cases h : action = action' <;> simp [h]

theorem handleAction_transitionMap [DecidableEq A] (m : StateMachine A D) (action : A) :
    (handleAction m action).machine.transitionMap_ = m.transitionMap_ ∨
      (handleAction m action).machine.transitionMap_ = (umIndex m.transitionMap_ action []).2 := by
  simp only [handleAction]
  repeat' split
  all_goals first
    | exact Or.inl rfl
    | exact Or.inr rfl

theorem bucket_handleAction [DecidableEq A] (m : StateMachine A D) (action action' : A) :
    bucket (handleAction m action).machine action' = bucket m action' := by
  rcases handleAction_transitionMap m action with h | h
  · simp [bucket, h]
  · simp only [bucket, h, umIndex_fst_umIndex_snd]

theorem setStartingState_statesMap (m : StateMachine A D) (stateName : String) :
    (setStartingState m stateName).2.statesMap_ = m.statesMap_ := by
  unfold setStartingState
  cases hf : umFind m.statesMap_ stateName with
  | none => rfl
  | some v => simp [umIndex_of_find_some hf]

theorem bucket_setStartingState [DecidableEq A] (m : StateMachine A D) (stateName : String)
    (action : A) : bucket (setStartingState m stateName).2 action = bucket m action := by
  unfold setStartingState
  split <;> rfl

/-! ### What a history without certain calls leaves behind -/

/-- A name that was never registered is absent from the registry or bound to a
null pointer. -/
theorem Reachable.unregistered [Inhabited D] [DecidableEq A] {stateName : String}
    {m : StateMachine A D} (h : Reachable (withoutRegistering stateName) m) :
    umFind m.statesMap_ stateName = none ∨ umFind m.statesMap_ stateName = some none := by
  induction h with
  | init => left; rfl
  | @call m' c _ hc ih =>
    cases c with
    | registerState n obj =>
      have hne : n ≠ stateName := hc
      simpa [Call.apply, registerState, umFind_umAssign, hne] using ih
    | addTransition action from_ to_ => exact ih
    | setStartingState n =>
      simpa [Call.apply, setStartingState_statesMap] using ih
    | handleAction action =>
      rcases handleAction_statesMap m' action with heq | ⟨k, heq⟩
      · simp only [Call.apply, heq]
        exact ih
      · simp only [Call.apply, heq, umFind_umIndex_snd]
        by_cases hk : k = stateName
        · subst hk
          rcases ih with h' | h' <;> simp [h']
        · simpa [hk] using ih

/-- An action for which nothing was declared has an empty bucket. -/
theorem Reachable.undeclared [Inhabited D] [DecidableEq A] {action : A}
    {m : StateMachine A D} (h : Reachable (withoutDeclaring action) m) :
    bucket m action = [] := by
  induction h with
  | init => rfl
  | @call m' c _ hc ih =>
    cases c with
    | registerState n obj => exact ih
    | addTransition a from_ to_ =>
      have hne : a ≠ action := hc
      simpa [Call.apply, bucket_addTransition, hne] using ih
    | setStartingState n => simpa [Call.apply, bucket_setStartingState] using ih
    | handleAction a => simpa [Call.apply, bucket_handleAction] using ih

/-- Before any `setStartingState` call has succeeded the machine has no current
state. -/
theorem Reachable.notStarted [Inhabited D] [DecidableEq A] {m : StateMachine A D}
    (h : Reachable beforeStart m) : m.currentState_ = none := by
  induction h with
  | init => rfl
  | @call m' c _ hc ih =>
    cases c with
    | registerState n obj => exact ih
    | addTransition a from_ to_ => exact ih
    | setStartingState n =>
      have hraised : (setStartingState m' n).1 ≠ .returned () := hc
      unfold setStartingState at hraised
      simp only [Call.apply, setStartingState]
      split
      · exact ih
      · rename_i v hv
        simp [hv] at hraised
    | handleAction a =>
      simp only [Call.apply, handleAction_notReady m' a ih]
      exact ih

/-! ### Later declarations -/

/-- No call removes or reorders records: a bucket only grows at its end. -/
theorem bucket_apply [DecidableEq A] (m : StateMachine A D) (c : Call A D) (action : A) :
    ∃ extra, bucket (c.apply m) action = bucket m action ++ extra := by
  cases c with
  | registerState n obj => exact ⟨[], by simp [Call.apply, bucket, registerState]⟩
  | addTransition a from_ to_ =>
    by_cases h : a = action
    · exact ⟨[Transition.mk from_ to_], by simp [Call.apply, bucket_addTransition, h]⟩
    · exact ⟨[], by simp [Call.apply, bucket_addTransition, h]⟩
  | setStartingState n => exact ⟨[], by simp [Call.apply, bucket_setStartingState]⟩
  | handleAction a => exact ⟨[], by simp [Call.apply, bucket_handleAction]⟩

theorem bucket_after [DecidableEq A] (calls : List (Call A D)) (m : StateMachine A D)
    (action : A) : ∃ extra, bucket (after m calls) action = bucket m action ++ extra := by
  induction calls generalizing m with
  | nil => exact ⟨[], by simp [after]⟩
  | cons c rest ih =>
    obtain ⟨e₁, h₁⟩ := bucket_apply m c action
    obtain ⟨e₂, h₂⟩ := ih (c.apply m)
    exact ⟨e₁ ++ e₂, by simp [after, h₂, h₁]⟩

/-- A call that returns true has made the instance registered under the matched
record's `to` current. -/
theorem handleAction_returned_true [DecidableEq A] {m : StateMachine A D} {action : A}
    {cur : Ptr} {t : Transition}
    (hready : m.currentState_ = some cur) (hmatch : matched m action = some t)
    (hret : (handleAction m action).outcome = .returned true) :
    ∃ nxt, umFind m.statesMap_ t.to_ = some (some nxt)
      ∧ (handleAction m action).machine.currentState_ = some nxt := by
  by_cases hnoop : t.to_ = Transition.NO ∨ t.to_ = t.from_
  · rw [handleAction_noop m action cur t hready hmatch hnoop] at hret
    simp at hret
  · have hno : t.to_ ≠ Transition.NO := fun e => hnoop (Or.inl e)
    have hself : t.to_ ≠ t.from_ := fun e => hnoop (Or.inr e)
    cases hi : (umIndex m.statesMap_ t.to_ none).1 with
    | none =>
      rw [handleAction_targetUnregistered m action cur t hready hmatch hno hself hi] at hret
      simp at hret
    | some nxt =>
      have hreg := umIndex_fst_mem hi
      cases hv : (heapAfterLeave m cur nxt).validate (heapAfterLeave m cur cur).data_ with
      | false =>
        rw [handleAction_rejected m action cur nxt t hready hmatch hno hself hreg hv] at hret
        simp at hret
      | true =>
        refine ⟨nxt, hreg, ?_⟩
        rw [handleAction_success m action cur nxt t hready hmatch hno hself hreg hv]

/-! ### Every call of `handleAction` takes one of the eight paths -/

/-- The eight paths, each with the conditions under which it is taken and the
full result. -/
theorem handleAction_classify [DecidableEq A] (m : StateMachine A D) (action : A) :
    (m.currentState_ = none ∧ handleAction m action = ⟨.raised .notReady, m, []⟩)
    ∨ (∃ cur, m.currentState_ = some cur ∧ bucket m action = [] ∧
        handleAction m action =
          ⟨.raised .noTransitionRegisteredForAction,
            { m with transitionMap_ := (umIndex m.transitionMap_ action []).2 }, []⟩)
    ∨ (∃ cur, m.currentState_ = some cur ∧ bucket m action ≠ [] ∧
        findCurrentStatePair m = none ∧
        handleAction m action =
          ⟨.raised (.currentStateUnregistered (m.heap cur).description), m, []⟩)
    ∨ (∃ cur pair, m.currentState_ = some cur ∧ bucket m action ≠ [] ∧
        findCurrentStatePair m = some pair ∧ findTransition (bucket m action) pair = none ∧
        handleAction m action = ⟨.raised .noTransitionForCurrentState, m, []⟩)
    ∨ (∃ cur t, m.currentState_ = some cur ∧ matched m action = some t ∧
        (t.to_ = Transition.NO ∨ t.to_ = t.from_) ∧
        handleAction m action = ⟨.returned false, m, []⟩)
    ∨ (∃ cur t, m.currentState_ = some cur ∧ matched m action = some t ∧
        t.to_ ≠ Transition.NO ∧ t.to_ ≠ t.from_ ∧
        (umIndex m.statesMap_ t.to_ none).1 = none ∧
        handleAction m action =
          ⟨.raised (.targetStateUnregistered t.to_),
            { m with heap := heapAfterLeave m cur
                     statesMap_ := (umIndex m.statesMap_ t.to_ none).2 },
            [⟨.beforeTransition, cur, (m.heap cur).data_, none, some cur⟩]⟩)
    ∨ (∃ cur nxt t, m.currentState_ = some cur ∧ matched m action = some t ∧
        t.to_ ≠ Transition.NO ∧ t.to_ ≠ t.from_ ∧
        umFind m.statesMap_ t.to_ = some (some nxt) ∧
        (heapAfterLeave m cur nxt).validate (heapAfterLeave m cur cur).data_ = false ∧
        handleAction m action =
          ⟨.raised (.validationRejected (heapAfterLeave m cur nxt).description),
            { m with heap := heapAfterLeave m cur },
            [⟨.beforeTransition, cur, (m.heap cur).data_, none, some cur⟩,
             ⟨.validate, nxt, (heapAfterLeave m cur nxt).data_,
               some (heapAfterLeave m cur cur).data_, some cur⟩]⟩)
    ∨ (∃ cur nxt t, m.currentState_ = some cur ∧ matched m action = some t ∧
        t.to_ ≠ Transition.NO ∧ t.to_ ≠ t.from_ ∧
        umFind m.statesMap_ t.to_ = some (some nxt) ∧
        (heapAfterLeave m cur nxt).validate (heapAfterLeave m cur cur).data_ = true ∧
        handleAction m action =
          ⟨.returned true,
            { m with
              heap := Function.update (heapAfterLeave m cur) nxt
                (((heapAfterLeave m cur nxt).setData
                  (heapAfterLeave m cur cur).data_).afterTransition)
              currentState_ := some nxt },
            [⟨.beforeTransition, cur, (m.heap cur).data_, none, some cur⟩,
             ⟨.validate, nxt, (heapAfterLeave m cur nxt).data_,
               some (heapAfterLeave m cur cur).data_, some cur⟩,
             ⟨.afterTransition, nxt, (heapAfterLeave m cur cur).data_, none, some nxt⟩]⟩) := by
  rcases Option.eq_none_or_eq_some m.currentState_ with hc | ⟨cur, hc⟩
  · exact Or.inl ⟨hc, handleAction_notReady m action hc⟩
  right
  by_cases hb : bucket m action = []
  · exact Or.inl ⟨cur, hc, hb, handleAction_emptyBucket m action cur hc hb⟩
  right
  rcases Option.eq_none_or_eq_some (findCurrentStatePair m) with hp | ⟨pair, hp⟩
  · exact Or.inl ⟨cur, hc, hb, hp, handleAction_currentUnregistered m action cur hc hb hp⟩
  right
  rcases Option.eq_none_or_eq_some (findTransition (bucket m action) pair) with ht | ⟨t, ht⟩
  · exact Or.inl ⟨cur, pair, hc, hb, hp, ht,
      handleAction_noTransition m action cur pair hc hb hp ht⟩
  right
  have hmatch : matched m action = some t := matched_iff.mpr ⟨pair, hp, ht⟩
  by_cases hnoop : t.to_ = Transition.NO ∨ t.to_ = t.from_
  · exact Or.inl ⟨cur, t, hc, hmatch, hnoop, handleAction_noop m action cur t hc hmatch hnoop⟩
  right
  have hno : t.to_ ≠ Transition.NO := fun e => hnoop (Or.inl e)
  have hself : t.to_ ≠ t.from_ := fun e => hnoop (Or.inr e)
  rcases Option.eq_none_or_eq_some (umIndex m.statesMap_ t.to_ none).1 with hi | ⟨nxt, hi⟩
  · exact Or.inl ⟨cur, t, hc, hmatch, hno, hself, hi,
      handleAction_targetUnregistered m action cur t hc hmatch hno hself hi⟩
  right
  have hreg := umIndex_fst_mem hi
  rcases Bool.eq_false_or_eq_true
      ((heapAfterLeave m cur nxt).validate (heapAfterLeave m cur cur).data_) with hv | hv
  · exact Or.inr ⟨cur, nxt, t, hc, hmatch, hno, hself, hreg, hv,
      handleAction_success m action cur nxt t hc hmatch hno hself hreg hv⟩
  · exact Or.inl ⟨cur, nxt, t, hc, hmatch, hno, hself, hreg, hv,
      handleAction_rejected m action cur nxt t hc hmatch hno hself hreg hv⟩

/-! ### Objects keep their identity -/

theorem sameUpToData_heapAfterLeave (m : StateMachine A D) (cur q : Ptr) :
    (heapAfterLeave m cur q).sameUpToData (m.heap q) := by
  unfold heapAfterLeave
  by_cases h : q = cur
  · subst h
    simp [State.sameUpToData, State.beforeTransition]
  · simp [Function.update_noteq h, State.sameUpToData]

/-- No call of `handleAction` replaces an object: hooks and `setData` change
`data_` only. -/
theorem handleAction_heap [DecidableEq A] (m : StateMachine A D) (action : A) (q : Ptr) :
    ((handleAction m action).machine.heap q).sameUpToData (m.heap q) := by
  have hrefl : (m.heap q).sameUpToData (m.heap q) := ⟨rfl, rfl, rfl, rfl⟩
  rcases handleAction_classify m action with
    ⟨-, h⟩ | ⟨_, -, -, h⟩ | ⟨_, -, -, -, h⟩ | ⟨_, _, -, -, -, -, h⟩ | ⟨_, _, -, -, -, h⟩ |
    ⟨cur, _, -, -, -, -, -, h⟩ | ⟨cur, _, _, -, -, -, -, -, -, h⟩ |
    ⟨cur, nxt, _, -, -, -, -, -, -, h⟩
  all_goals rw [h]
  any_goals exact hrefl
  · exact sameUpToData_heapAfterLeave m cur q
  · exact sameUpToData_heapAfterLeave m cur q
  · have hq := sameUpToData_heapAfterLeave m cur q
    by_cases hn : q = nxt
    · subst hn
      simpa [State.sameUpToData, State.setData, State.afterTransition] using hq
    · simpa [Function.update_noteq hn] using hq

theorem setStartingState_heap (m : StateMachine A D) (stateName : String) :
    (setStartingState m stateName).2.heap = m.heap := by
  unfold setStartingState
  split <;> rfl

theorem setStartingState_next (m : StateMachine A D) (stateName : String) :
    (setStartingState m stateName).2.next = m.next := by
  unfold setStartingState
  split <;> rfl

/-- Once registered, a name stays bound to the object of that registration, and
the object stays what it was up to its data, as long as the name is not
registered again. -/
theorem registration_persists [DecidableEq A] (later : List (Call A D))
    (m : StateMachine A D) (stateName : String) (p : Ptr) (obj : State D)
    (hlater : ∀ c ∈ later, c.registers ≠ some stateName)
    (hfind : umFind m.statesMap_ stateName = some (some p)) (hlt : p < m.next)
    (hobj : (m.heap p).sameUpToData obj) :
    umFind (after m later).statesMap_ stateName = some (some p)
    ∧ ((after m later).heap p).sameUpToData obj := by
  induction later generalizing m with
  | nil => exact ⟨hfind, hobj⟩
  | cons c rest ih =>
    have hrest : ∀ c' ∈ rest, c'.registers ≠ some stateName :=
      fun c' hc' => hlater c' (List.mem_cons_of_mem _ hc')
    have hc := hlater c (List.mem_cons_self _ _)
    simp only [after]
    cases c with
    | registerState n o =>
      have hne : n ≠ stateName := by simpa [Call.registers] using hc
      have hp : p ≠ m.next := Nat.ne_of_lt hlt
      refine ih (m.registerState n o) hrest ?_ ?_ ?_
      · simpa [registerState, umFind_umAssign, hne] using hfind
      · exact Nat.lt_succ_of_lt hlt
      · simpa [registerState, Function.update_noteq hp] using hobj
    | addTransition a f t => exact ih _ hrest hfind hlt hobj
    | setStartingState n =>
      refine ih _ hrest ?_ ?_ ?_
      · simpa [Call.apply, setStartingState_statesMap] using hfind
      · simpa [Call.apply, setStartingState_next] using hlt
      · simpa [Call.apply, setStartingState_heap] using hobj
    | handleAction a =>
      refine ih _ hrest ?_ ?_ ?_
      · rcases handleAction_statesMap m a with heq | ⟨k, heq⟩
        · simpa [Call.apply, heq] using hfind
        · simp only [Call.apply, heq, umFind_umIndex_snd]
          by_cases hk : k = stateName
          · subst hk; simp [hfind]
          · simpa [hk] using hfind
      · simpa [Call.apply, handleAction_next] using hlt
      · obtain ⟨h₁, h₂, h₃, h₄⟩ := handleAction_heap m a p
        obtain ⟨g₁, g₂, g₃, g₄⟩ := hobj
        exact ⟨h₁.trans g₁, h₂.trans g₂, h₃.trans g₃, h₄.trans g₄⟩

/-! ### The current object stays registered -/

theorem mem_umAssign_of_ne {K V : Type} [DecidableEq K] {l : List (K × V)} {k k' : K}
    {v v' : V} (h : (k', v') ∈ l) (hne : k' ≠ k) : (k', v') ∈ umAssign l k v := by
  induction l with
  | nil => simp at h
  | cons e rest ih =>
    obtain ⟨k₀, v₀⟩ := e
    by_cases h₀ : k₀ = k
    · subst h₀
      simp only [umAssign, if_true]
      rcases List.mem_cons.mp h with heq | hmem
      · exact absurd (congrArg Prod.fst heq) hne
      · exact List.mem_cons_of_mem _ hmem
    · simp only [umAssign, h₀, if_false]
      rcases List.mem_cons.mp h with heq | hmem
      · exact heq ▸ List.mem_cons_self _ _
      · exact List.mem_cons_of_mem _ (ih hmem)

theorem mem_umIndex_snd_of_mem {K V : Type} [DecidableEq K] {l : List (K × V)} {e : K × V}
    (h : e ∈ l) (k : K) (dflt : V) : e ∈ (umIndex l k dflt).2 := by
  unfold umIndex
  cases umFind l k with
  | none => exact List.mem_append_left _ h
  | some v => exact h

theorem handleAction_statesMap_mono [DecidableEq A] (m : StateMachine A D) (action : A)
    {e : String × Option Ptr} (h : e ∈ m.statesMap_) :
    e ∈ (handleAction m action).machine.statesMap_ := by
  rcases handleAction_statesMap m action with heq | ⟨k, heq⟩
  · rwa [heq]
  · rw [heq]
    exact mem_umIndex_snd_of_mem h k none

theorem handleAction_statesMap_objects [DecidableEq A] (m : StateMachine A D) (action : A)
    {n : String} {p : Ptr} (h : (n, some p) ∈ (handleAction m action).machine.statesMap_) :
    (n, some p) ∈ m.statesMap_ := by
  rcases handleAction_statesMap m action with heq | ⟨k, heq⟩
  · rwa [heq] at h
  · rw [heq] at h
    rcases mem_umIndex_snd h with hold | hnew
    · exact hold
    · simp at hnew

theorem Reachable.after [Inhabited D] [DecidableEq A] {m : StateMachine A D}
    (h : Reachable anyCall m) (calls : List (Call A D)) :
    Reachable anyCall (StateMachine.after m calls) := by
  induction calls generalizing m with
  | nil => exact h
  | cons c rest ih => exact ih (.call c h trivial)

theorem findCurrentStatePair_eq_none {m : StateMachine A D} :
    findCurrentStatePair m = none ↔ ∀ e ∈ m.statesMap_, e.2 ≠ m.currentState_ := by
  simp [findCurrentStatePair, List.find?_eq_none]

/-- In a well-formed machine the name found for the current object is the one
name it is registered under. -/
theorem currentName_of_registered {m : StateMachine A D} (hwf : WellFormed m)
    {name : String} {p : Ptr} (hcur : m.currentState_ = some p)
    (hmem : (name, some p) ∈ m.statesMap_) : currentName m = some name := by
  rcases Option.eq_none_or_eq_some (findCurrentStatePair m) with hnone | ⟨pair, hpair⟩
  · exact absurd hcur.symm (findCurrentStatePair_eq_none.mp hnone _ hmem)
  · obtain ⟨hin, hp⟩ := find?_mem_pred hpair
    obtain ⟨n', v⟩ := pair
    simp only [decide_eq_true_eq, hcur] at hp
    subst hp
    simp [currentName, hpair, hwf.distinct n' name p hin hmem]

/-- With pairwise distinct registered names, the current object is always held
by the registry. `seen` lists the names registered so far. -/
theorem current_registered_after [DecidableEq A] (calls : List (Call A D))
    (m : StateMachine A D) (seen : List String)
    (hseen : ∀ n p, (n, some p) ∈ m.statesMap_ → n ∈ seen)
    (hcur : ∀ p, m.currentState_ = some p → ∃ n, (n, some p) ∈ m.statesMap_)
    (hnodup : (seen ++ calls.filterMap Call.registers).Nodup) :
    ∀ p, (after m calls).currentState_ = some p → ∃ n, (n, some p) ∈ (after m calls).statesMap_ := by
  induction calls generalizing m seen with
  | nil => exact hcur
  | cons c rest ih =>
    simp only [after]
    cases c with
    | registerState n obj =>
      have hnodup' : ((seen ++ [n]) ++ rest.filterMap Call.registers).Nodup := by
        simpa [Call.registers, List.filterMap_cons] using hnodup
      have hfresh : n ∉ seen := by
        intro hin
        have := (List.nodup_append.mp hnodup).2.2
        exact this hin (by simp [Call.registers, List.filterMap_cons]) 
      refine ih (m.registerState n obj) (seen ++ [n]) ?_ ?_ hnodup'
      · intro n' p hmem
        rcases mem_umAssign hmem with heq | hold
        · simp [(Prod.mk.inj heq).1]
        · exact List.mem_append_left _ (hseen n' p hold)
      · intro p hp
        obtain ⟨n', hn'⟩ := hcur p hp
        have hne : n' ≠ n := fun e => hfresh (e ▸ hseen n' p hn')
        exact ⟨n', mem_umAssign_of_ne hn' hne⟩
    | addTransition a f t =>
      exact ih _ seen hseen hcur (by simpa [Call.registers, List.filterMap_cons] using hnodup)
    | setStartingState n =>
      refine ih _ seen ?_ ?_ (by simpa [Call.registers, List.filterMap_cons] using hnodup)
      · simpa [Call.apply, setStartingState_statesMap] using hseen
      · intro p hp
        simp only [Call.apply, setStartingState_statesMap]
        simp only [Call.apply, setStartingState] at hp
        cases hf : umFind m.statesMap_ n with
        | none =>
          simp only [hf] at hp
          exact hcur p hp
        | some v =>
          simp only [hf, umIndex_of_find_some hf] at hp
          exact ⟨n, umFind_mem (hp ▸ hf)⟩
    | handleAction a =>
      refine ih _ seen ?_ ?_ (by simpa [Call.registers, List.filterMap_cons] using hnodup)
      · intro n p hmem
        exact hseen n p (handleAction_statesMap_objects m a hmem)
      · intro p hp
        rcases handleAction_current m a with heq | ⟨k, q, hk, heq⟩
        · obtain ⟨n, hn⟩ := hcur p (heq ▸ hp)
          exact ⟨n, handleAction_statesMap_mono m a hn⟩
        · have hqp : q = p := by
            have := heq.symm.trans hp
            simpa using this
          exact ⟨k, handleAction_statesMap_mono m a (hqp ▸ umFind_mem hk)⟩

/-! ### Keys of the registry -/

theorem umFind_eq_none_iff {K V : Type} [DecidableEq K] (l : List (K × V)) (k : K) :
    umFind l k = none ↔ k ∉ l.map Prod.fst := by
  induction l with
  | nil => simp [umFind]
  | cons e rest ih =>
    obtain ⟨k₀, v₀⟩ := e
    by_cases h : k₀ = k
    · simp [umFind, h]
    · have h' : ¬ k = k₀ := fun e => h e.symm
      simp [umFind, h, h', ih]

theorem keys_umAssign_of_mem {K V : Type} [DecidableEq K] (l : List (K × V)) (k : K) (v : V)
    (h : k ∈ l.map Prod.fst) : (umAssign l k v).map Prod.fst = l.map Prod.fst := by
  induction l with
  | nil => simp at h
  | cons e rest ih =>
    obtain ⟨k₀, v₀⟩ := e
    by_cases h₀ : k₀ = k
    · simp [umAssign, h₀]
    · have hrest : k ∈ rest.map Prod.fst := by
        rcases List.mem_cons.mp h with heq | hmem
        · exact absurd heq.symm h₀
        · exact hmem
      simp [umAssign, h₀, ih hrest]

theorem keys_umAssign_of_not_mem {K V : Type} [DecidableEq K] (l : List (K × V)) (k : K)
    (v : V) (h : k ∉ l.map Prod.fst) :
    (umAssign l k v).map Prod.fst = l.map Prod.fst ++ [k] := by
  induction l with
  | nil => simp [umAssign]
  | cons e rest ih =>
    obtain ⟨k₀, v₀⟩ := e
    have h₀ : ¬ k₀ = k := fun e => h (by simp [e])
    have hrest : k ∉ rest.map Prod.fst := fun hm => h (List.mem_cons_of_mem _ hm)
    simp [umAssign, h₀, ih hrest]

theorem nodup_keys_umAssign {K V : Type} [DecidableEq K] (l : List (K × V)) (k : K) (v : V)
    (h : (l.map Prod.fst).Nodup) : ((umAssign l k v).map Prod.fst).Nodup := by
  by_cases hk : k ∈ l.map Prod.fst
  · rw [keys_umAssign_of_mem l k v hk]
    exact h
  · rw [keys_umAssign_of_not_mem l k v hk]
    exact List.nodup_append.mpr ⟨h, List.nodup_singleton k, by
      intro a ha hb
      exact hk ((List.mem_singleton.mp hb) ▸ ha)⟩

theorem nodup_keys_umIndex {K V : Type} [DecidableEq K] (l : List (K × V)) (k : K) (dflt : V)
    (h : (l.map Prod.fst).Nodup) : ((umIndex l k dflt).2.map Prod.fst).Nodup := by
  unfold umIndex
  cases hf : umFind l k with
  | some v => exact h
  | none =>
    have hk := (umFind_eq_none_iff l k).mp hf
    simp only [List.map_append, List.map_cons, List.map_nil]
    exact List.nodup_append.mpr ⟨h, List.nodup_singleton k, by
      intro a ha hb
      exact hk ((List.mem_singleton.mp hb) ▸ ha)⟩

/-- With unique keys, assignment leaves no other entry under the assigned key. -/
theorem mem_umAssign_unique {K V : Type} [DecidableEq K] {l : List (K × V)} {k : K} {v : V}
    (hnodup : (l.map Prod.fst).Nodup) {e : K × V} (h : e ∈ umAssign l k v) :
    e = (k, v) ∨ (e ∈ l ∧ e.1 ≠ k) := by
  induction l with
  | nil => left; simpa [umAssign] using h
  | cons e₀ rest ih =>
    obtain ⟨k₀, v₀⟩ := e₀
    have hnd : k₀ ∉ rest.map Prod.fst ∧ (rest.map Prod.fst).Nodup := by
      simpa using hnodup
    by_cases h₀ : k₀ = k
    · subst h₀
      simp only [umAssign, if_true] at h
      rcases List.mem_cons.mp h with heq | hmem
      · exact Or.inl heq
      · refine Or.inr ⟨List.mem_cons_of_mem _ hmem, ?_⟩
        intro he
        exact hnd.1 (he ▸ List.mem_map_of_mem Prod.fst hmem)
    · simp only [umAssign, h₀, if_false] at h
      rcases List.mem_cons.mp h with heq | hmem
      · exact Or.inr ⟨heq ▸ List.mem_cons_self _ _, by rw [heq]; exact h₀⟩
      · rcases ih hnd.2 hmem with h' | ⟨h', hne⟩
        · exact Or.inl h'
        · exact Or.inr ⟨List.mem_cons_of_mem _ h', hne⟩

/-- Every machine a caller can obtain has pairwise distinct registry keys. -/
theorem Reachable.uniqueKeys [Inhabited D] [DecidableEq A]
    {allowed : StateMachine A D → Call A D → Prop} {m : StateMachine A D}
    (h : Reachable allowed m) : UniqueKeys m := by
  induction h with
  | init => simp [UniqueKeys, StateMachine.init]
  | @call m' c _ _ ih =>
    cases c with
    | registerState n obj => exact nodup_keys_umAssign _ _ _ ih
    | addTransition a f t => exact ih
    | setStartingState n =>
      simpa [UniqueKeys, Call.apply, setStartingState_statesMap] using ih
    | handleAction a =>
      rcases handleAction_statesMap m' a with heq | ⟨k, heq⟩
      · simpa [UniqueKeys, Call.apply, heq] using ih
      · simp only [UniqueKeys, Call.apply, heq]
        exact nodup_keys_umIndex _ _ _ ih

/-- A machine whose current object is held by no registry entry stays so under
every call but `setStartingState`, and keeps that current object. -/
theorem stranded_after [DecidableEq A] (later : List (Call A D)) (m : StateMachine A D)
    (cur : Ptr) (hlater : ∀ c ∈ later, c.isStart = false)
    (hcur : m.currentState_ = some cur) (hlt : cur < m.next)
    (hout : ∀ n, (n, some cur) ∉ m.statesMap_) :
    (after m later).currentState_ = some cur
    ∧ ∀ n, (n, some cur) ∉ (after m later).statesMap_ := by
  induction later generalizing m with
  | nil => exact ⟨hcur, hout⟩
  | cons c rest ih =>
    have hrest : ∀ c' ∈ rest, c'.isStart = false :=
      fun c' hc' => hlater c' (List.mem_cons_of_mem _ hc')
    have hc := hlater c (List.mem_cons_self _ _)
    simp only [after]
    cases c with
    | registerState n obj =>
      refine ih (m.registerState n obj) hrest hcur (Nat.lt_succ_of_lt hlt) ?_
      intro n' hmem
      rcases mem_umAssign hmem with heq | hold
      · have : cur = m.next := by simpa using (Prod.mk.inj heq).2
        exact absurd this (Nat.ne_of_lt hlt)
      · exact hout n' hold
    | addTransition a f t => exact ih _ hrest hcur hlt hout
    | setStartingState n => simp [Call.isStart] at hc
    | handleAction a =>
      have hnone : findCurrentStatePair m = none := by
        rw [findCurrentStatePair_eq_none]
        intro e he heq
        exact hout e.1 (by rw [hcur] at heq; rw [← heq]; exact he)
      have hshape : (handleAction m a).machine.currentState_ = some cur
          ∧ (handleAction m a).machine.statesMap_ = m.statesMap_ := by
        rcases handleAction_classify m a with
          ⟨h0, -⟩ | ⟨_, -, -, h⟩ | ⟨_, -, -, -, h⟩ | ⟨_, _, -, -, hp, -, -⟩ |
          ⟨_, _, -, hm, -, -⟩ | ⟨_, _, -, hm, -, -, -, -⟩ | ⟨_, _, _, -, hm, -, -, -, -, -⟩ |
          ⟨_, _, _, -, hm, -, -, -, -, -⟩
        · simp [hcur] at h0
        · rw [h]; exact ⟨hcur, rfl⟩
        · rw [h]; exact ⟨hcur, rfl⟩
        · simp [hnone] at hp
        all_goals
          obtain ⟨pair, hp, -⟩ := matched_iff.mp hm
          simp [hnone] at hp
      refine ih _ hrest hshape.1 ?_ ?_
      · simpa [Call.apply, handleAction_next] using hlt
      · simpa [Call.apply, hshape.2] using hout

/-! ### The run as a fold of `delta` -/

/-- The record the claim's `delta` looks at is the record `handleAction`
matches. -/
theorem firstRecord_eq_matched [DecidableEq A] {m : StateMachine A D} {n : String}
    (hname : currentName m = some n) (action : A) :
    firstRecord (bucket m) action n = matched m action := by
  simp only [currentName, Option.map_eq_some'] at hname
  obtain ⟨pair, hpair, hfst⟩ := hname
  subst hfst
  simp only [firstRecord, matched, hpair, Option.some_bind, findTransition]
  congr 1
  funext t
  simp [eq_comm]

theorem matched_from [DecidableEq A] {m : StateMachine A D} {n : String} {action : A}
    {t : Transition} (hname : currentName m = some n) (hmatch : matched m action = some t) :
    t.from_ = n := by
  simp only [currentName, Option.map_eq_some'] at hname
  obtain ⟨pair, hpair, hfst⟩ := hname
  obtain ⟨pair', hpair', htr⟩ := matched_iff.mp hmatch
  have : pair' = pair := Option.some.inj (hpair'.symm.trans hpair)
  subst this
  have := (find?_mem_pred htr).2
  simp only [decide_eq_true_eq] at this
  exact this.symm.trans hfst

theorem bucket_handleAction_fun [DecidableEq A] (m : StateMachine A D) (action : A) :
    bucket (handleAction m action).machine = bucket m :=
  funext (bucket_handleAction m action)

/-- The run of a well-formed Ready machine on which no call fails, against the
iterated `delta`. -/
theorem run_eq_deltaRun [DecidableEq A] (actions : List A) (m : StateMachine A D)
    (hwf : WellFormed m) (cur : Ptr) (n : String)
    (hready : m.currentState_ = some cur) (hname : currentName m = some n)
    (hok : ∀ r ∈ run m actions, ∃ b, r.outcome = .returned b) :
    (run m actions).map (fun r => (currentName r.machine, r.outcome)) =
      (deltaRun (bucket m) n actions).map (fun p => (some p.1, Outcome.returned p.2)) := by
  induction actions generalizing m cur n with
  | nil => rfl
  | cons a rest ih =>
    obtain ⟨b, hb⟩ := hok (handleAction m a) (by simp [run])
    have hrest : ∀ r ∈ run (handleAction m a).machine rest, ∃ b, r.outcome = .returned b :=
      fun r hr => hok r (by simp [run, hr])
    have hwf' := wellFormed_handleAction hwf a
    have hfirst := firstRecord_eq_matched hname a
    rcases handleAction_classify m a with
      ⟨-, h⟩ | ⟨_, -, -, h⟩ | ⟨_, -, -, -, h⟩ | ⟨_, _, -, -, -, -, h⟩ |
      ⟨_, t, -, hm, hnoop, h⟩ | ⟨_, _, -, -, -, -, -, h⟩ | ⟨_, _, _, -, -, -, -, -, -, h⟩ |
      ⟨cur', nxt, t, -, hm, hno, hself, hreg, -, h⟩
    any_goals (rw [h] at hb; simp at hb)
    · have hfrom := matched_from hname hm
      have hnoop' : t.to_ = Transition.NO ∨ t.to_ = n := hfrom ▸ hnoop
      have hdelta : delta (bucket m) a n = n := by
        simp [delta, hfirst, hm, hnoop']
      have hmoves : moves (bucket m) a n = false := by
        simp only [moves, hfirst, hm, decide_eq_false_iff_not, not_and_or, not_not]
        exact hnoop
      have hmach : (handleAction m a).machine = m := by rw [h]
      have ih' := ih m hwf cur n hready hname (hmach ▸ hrest)
      simp only [run, deltaRun, List.map_cons, hdelta, hmoves, hmach, ih']
      rw [h]
      simp [hname]
    · have hfrom := matched_from hname hm
      have hdelta : delta (bucket m) a n = t.to_ := by
        have hself' : ¬ t.to_ = n := hfrom ▸ hself
        simp [delta, hfirst, hm, hno, hself']
      have hmoves : moves (bucket m) a n = true := by
        simp [moves, hfirst, hm, hno, hself]
      have hcur' : (handleAction m a).machine.currentState_ = some nxt := by rw [h]
      have hmap' : (handleAction m a).machine.statesMap_ = m.statesMap_ := by rw [h]
      have hname' : currentName (handleAction m a).machine = some t.to_ :=
        currentName_of_registered hwf' hcur' (hmap' ▸ umFind_mem hreg)
      have hout : (handleAction m a).outcome = .returned true := by rw [h]
      have ih' := ih (handleAction m a).machine hwf' nxt t.to_ hcur' hname' hrest
      rw [bucket_handleAction_fun] at ih'
      simp only [run, deltaRun, List.map_cons, hdelta, hmoves, ih', hname', hout]

/-- After the first declaration for `(action, from)` and any further calls, the
record matched from `from` is that first one. -/
theorem matched_after_first_declaration [DecidableEq A] (m : StateMachine A D) (action : A)
    (from_ to_ : String) (later : List (Call A D))
    (hfresh : ∀ t ∈ bucket m action, t.from_ ≠ from_)
    (hname : currentName (after (addTransition m action from_ to_) later) = some from_) :
    matched (after (addTransition m action from_ to_) later) action = some ⟨from_, to_⟩ := by
  simp only [currentName, Option.map_eq_some'] at hname
  obtain ⟨pair, hpair, hfst⟩ := hname
  refine matched_iff.mpr ⟨pair, hpair, ?_⟩
  obtain ⟨extra, hextra⟩ := bucket_after later (addTransition m action from_ to_) action
  subst hfst
  have hnone : List.find? (fun transition => decide (pair.1 = transition.from_))
      (bucket m action) = none := by
    rw [List.find?_eq_none]
    intro t ht
    simpa using fun e => hfresh t ht e.symm
  simp [hextra, bucket_addTransition, findTransition, List.find?_append, hnone]

/-! ### Histories in which every call returns -/

theorem Reachable.mono [Inhabited D] [DecidableEq A]
    {allowed allowed' : StateMachine A D → Call A D → Prop}
    (himp : ∀ m c, allowed m c → allowed' m c) {m : StateMachine A D}
    (h : Reachable allowed m) : Reachable allowed' m := by
  induction h with
  | init => exact .init
  | call c _ hc ih => exact .call c ih (himp _ c hc)

/-- A call of `handleAction` that returns leaves the registry as it was. -/
theorem handleAction_statesMap_of_returned [DecidableEq A] (m : StateMachine A D) (action : A)
    (hret : (handleAction m action).outcome = .returned true
      ∨ (handleAction m action).outcome = .returned false) :
    (handleAction m action).machine.statesMap_ = m.statesMap_ := by
  rcases handleAction_classify m action with
    ⟨-, h⟩ | ⟨_, -, -, h⟩ | ⟨_, -, -, -, h⟩ | ⟨_, _, -, -, -, -, h⟩ | ⟨_, _, -, -, -, h⟩ |
    ⟨_, _, -, -, -, -, -, h⟩ | ⟨_, _, _, -, -, -, -, -, -, h⟩ |
    ⟨_, _, _, -, -, -, -, -, -, h⟩
  all_goals rw [h] at hret ⊢
  all_goals simp at hret

theorem noNullEntry_apply [DecidableEq A] {m : StateMachine A D} (hnull : NoNullEntry m)
    (c : Call A D) (hc : returning m c) : NoNullEntry (c.apply m) := by
  cases c with
  | registerState n obj =>
    intro n' hmem
    rcases mem_umAssign hmem with heq | hold
    · simp at heq
    · exact hnull n' hold
  | addTransition a f t => exact hnull
  | setStartingState n =>
    simpa [NoNullEntry, Call.apply, setStartingState_statesMap] using hnull
  | handleAction a =>
    have hret : (handleAction m a).outcome = .returned true
        ∨ (handleAction m a).outcome = .returned false := hc
    simpa [NoNullEntry, Call.apply, handleAction_statesMap_of_returned m a hret] using hnull

/-- While every call returns, the registry never holds a null entry. -/
theorem Reachable.noNullEntry [Inhabited D] [DecidableEq A] {m : StateMachine A D}
    (h : Reachable returning m) : NoNullEntry m := by
  induction h with
  | init => simp [NoNullEntry, StateMachine.init]
  | call c _ hc ih => exact noNullEntry_apply ih c hc

/-- Without null entries in the registry, no call takes the current state
away, whether it returns or raises. -/
theorem ready_apply [DecidableEq A] {m : StateMachine A D} (hnull : NoNullEntry m)
    (hready : ∃ p, m.currentState_ = some p) (c : Call A D) :
    ∃ p, (c.apply m).currentState_ = some p := by
  cases c with
  | registerState n obj => exact hready
  | addTransition a f t => exact hready
  | setStartingState n =>
    simp only [Call.apply, setStartingState]
    cases hf : umFind m.statesMap_ n with
    | none => exact hready
    | some v =>
      simp only [umIndex_of_find_some hf]
      cases v with
      | none => exact absurd (umFind_mem hf) (hnull n)
      | some p => exact ⟨p, rfl⟩
  | handleAction a =>
    rcases handleAction_current m a with heq | ⟨_, p, -, heq⟩
    · obtain ⟨p, hp⟩ := hready
      exact ⟨p, heq.trans hp⟩
    · exact ⟨p, heq⟩

theorem ready_after [DecidableEq A] (calls : List (Call A D)) (m : StateMachine A D)
    (hnull : NoNullEntry m) (hready : ∃ p, m.currentState_ = some p)
    (hcalls : allReturn m calls) :
    NoNullEntry (after m calls) ∧ ∃ p, (after m calls).currentState_ = some p := by
  induction calls generalizing m with
  | nil => exact ⟨hnull, hready⟩
  | cons c rest ih =>
    exact ih (c.apply m) (noNullEntry_apply hnull c hcalls.1) (ready_apply hnull hready c)
      hcalls.2

theorem not_notReady_of_ready [DecidableEq A] {m : StateMachine A D}
    (hready : ∃ p, m.currentState_ = some p) (action : A) :
    getCurrentState m ≠ .raised .notReady
    ∧ (handleAction m action).outcome ≠ .raised .notReady := by
  obtain ⟨p, hp⟩ := hready
  refine ⟨by simp [getCurrentState, hp], ?_⟩
  intro hout
  rcases handleAction_classify m action with
    ⟨h0, -⟩ | ⟨_, -, -, h⟩ | ⟨_, -, -, -, h⟩ | ⟨_, _, -, -, -, -, h⟩ | ⟨_, _, -, -, -, h⟩ |
    ⟨_, _, -, -, -, -, -, h⟩ | ⟨_, _, _, -, -, -, -, -, -, h⟩ |
    ⟨_, _, _, -, -, -, -, -, -, h⟩
  · simp [hp] at h0
  all_goals rw [h] at hout
  all_goals simp at hout

end StateMachine

/-! ### The claims -/

open StateMachine

variable {A D : Type}

/-- C1. Successful transition. For every Ready machine and action: if the first
record of the action's bucket whose `from` is the current state's name has a
`to` that is neither `NO` nor `from`, `to` is registered, and the target's
`validate` accepts the current state's data as it is after `beforeTransition`
ran, then `handleAction` returns true, the current state is the instance
registered under `to`, and the only `afterTransition` call made is on that
instance, whose data at that moment is the outgoing state's data as
`beforeTransition` left it. -/
theorem C1_successful_transition [DecidableEq A] (m : StateMachine A D) (action : A)
    (cur nxt : Ptr) (t : Transition)
    (hready : m.currentState_ = some cur)
    (hmatch : matched m action = some t)
    (hno : t.to_ ≠ Transition.NO) (hself : t.to_ ≠ t.from_)
    (hreg : umFind m.statesMap_ t.to_ = some (some nxt))
    (hval : (heapAfterLeave m cur nxt).validate (m.heap cur).beforeTransition.data_ = true) :
    (handleAction m action).outcome = .returned true
    ∧ (handleAction m action).machine.currentState_ = some nxt
    ∧ umFind (handleAction m action).machine.statesMap_ t.to_ = some (some nxt)
    ∧ (handleAction m action).calls.filter (fun c => decide (c.hook = .afterTransition)) =
        [⟨.afterTransition, nxt, (m.heap cur).beforeTransition.data_, none, some nxt⟩]
    ∧ ((handleAction m action).machine.heap nxt).data_ =
        (heapAfterLeave m cur nxt).afterTransitionImpl (m.heap cur).beforeTransition.data_ := by
  have hval' : (heapAfterLeave m cur nxt).validate (heapAfterLeave m cur cur).data_ = true := by
    simpa [heapAfterLeave] using hval
  rw [handleAction_success m action cur nxt t hready hmatch hno hself hreg hval']
  simp [hreg, heapAfterLeave, State.setData, State.afterTransition]

/-- Witness of C1: action `X` from `A` in the demonstration machine. -/
theorem C1_successful_transition_witness :
    (handleAction Demo.started Demo.Action.X).outcome = .returned true
    ∧ (handleAction Demo.started Demo.Action.X).machine.currentState_ = some 1
    ∧ umFind (handleAction Demo.started Demo.Action.X).machine.statesMap_ "B" = some (some 1)
    ∧ (handleAction Demo.started Demo.Action.X).calls.filter
          (fun c => decide (c.hook = .afterTransition)) =
        [⟨.afterTransition, 1, (Demo.started.heap 0).beforeTransition.data_, none, some 1⟩]
    ∧ ((handleAction Demo.started Demo.Action.X).machine.heap 1).data_ =
        (heapAfterLeave Demo.started 0 1).afterTransitionImpl
          (Demo.started.heap 0).beforeTransition.data_ :=
  C1_successful_transition Demo.started Demo.Action.X 0 1 ⟨"A", "B"⟩
    (by decide) (by decide) (by decide) (by decide) (by decide) (by decide)

/-- C2. Declared no-op. For every Ready machine: if the first record of the
action's bucket matching the current state's name has `to = NO` or
`to = from`, then `handleAction` returns false, invokes no hook, and leaves the
whole machine as it was: the same current instance and the same data in every
object. -/
theorem C2_declared_noop [DecidableEq A] (m : StateMachine A D) (action : A)
    (cur : Ptr) (t : Transition)
    (hready : m.currentState_ = some cur)
    (hmatch : matched m action = some t)
    (hnoop : t.to_ = Transition.NO ∨ t.to_ = t.from_) :
    (handleAction m action).outcome = .returned false
    ∧ (handleAction m action).machine = m
    ∧ (handleAction m action).machine.currentState_ = some cur
    ∧ (∀ p, ((handleAction m action).machine.heap p).data_ = (m.heap p).data_)
    ∧ (handleAction m action).calls = [] := by
  rw [handleAction_noop m action cur t hready hmatch hnoop]
  simp [hready]

/-- Witness of C2: the self-loop `S` on `A` in the demonstration machine. -/
theorem C2_declared_noop_witness :
    (handleAction Demo.started Demo.Action.S).outcome = .returned false
    ∧ (handleAction Demo.started Demo.Action.S).machine = Demo.started
    ∧ (handleAction Demo.started Demo.Action.S).machine.currentState_ = some 0
    ∧ (∀ p, ((handleAction Demo.started Demo.Action.S).machine.heap p).data_ =
        (Demo.started.heap p).data_)
    ∧ (handleAction Demo.started Demo.Action.S).calls = [] :=
  C2_declared_noop Demo.started Demo.Action.S 0 ⟨"A", "A"⟩ (by decide) (by decide)
    (Or.inr rfl)

/-- C3, the claim as stated fails. In the demonstration machine with `B`
current (data 11), the record matched for `S` is the self-loop `B→B`: its
target `B` is registered and `B` rejects the data `beforeTransition` would
leave (11 is not below 5), yet `handleAction(S)` returns false, calls no hook
and raises nothing. -/
theorem C3_counterexample_self_loop :
    Demo.atB.currentState_ = some 1
    ∧ matched Demo.atB Demo.Action.S = some ⟨"B", "B"⟩
    ∧ umFind Demo.atB.statesMap_ "B" = some (some 1)
    ∧ (Demo.atB.heap 1).validate (Demo.atB.heap 1).beforeTransition.data_ = false
    ∧ (handleAction Demo.atB Demo.Action.S).outcome = .returned false
    ∧ (handleAction Demo.atB Demo.Action.S).outcome ≠ .raised (.validationRejected "B")
    ∧ (handleAction Demo.atB Demo.Action.S).calls = [] := by
  decide

/-- C3, amended. Validation rejection. For every Ready machine a caller can
obtain: if the matched record's `to` is neither `NO` nor `from`, its target is
registered, and the target's `validate` returns false on the outgoing state's
data as `beforeTransition` left it, then `handleAction` raises the validation
error, the current state is still the `from` instance, the target's data is
unchanged, no `afterTransition` is invoked, and the outgoing state's data is
what `beforeTransition` left (not rolled back). -/
theorem C3_validation_rejected [Inhabited D] [DecidableEq A] (m : StateMachine A D)
    (hreach : Reachable anyCall m) (action : A) (cur nxt : Ptr) (t : Transition)
    (hready : m.currentState_ = some cur)
    (hmatch : matched m action = some t)
    (hno : t.to_ ≠ Transition.NO) (hself : t.to_ ≠ t.from_)
    (hreg : umFind m.statesMap_ t.to_ = some (some nxt))
    (hval : (m.heap nxt).validate (m.heap cur).beforeTransition.data_ = false) :
    (handleAction m action).outcome = .raised (.validationRejected (m.heap nxt).description)
    ∧ (handleAction m action).machine.currentState_ = some cur
    ∧ currentName (handleAction m action).machine = some t.from_
    ∧ ((handleAction m action).machine.heap nxt).data_ = (m.heap nxt).data_
    ∧ (∀ c ∈ (handleAction m action).calls, c.hook ≠ .afterTransition)
    ∧ ((handleAction m action).machine.heap cur).data_ =
        (m.heap cur).beforeTransitionImpl (m.heap cur).data_ := by
  have hne : nxt ≠ cur := target_ne_current hreach.wellFormed hready hmatch hself hreg
  have hval' : (heapAfterLeave m cur nxt).validate (heapAfterLeave m cur cur).data_ = false := by
    simpa [heapAfterLeave, Function.update_noteq hne] using hval
  obtain ⟨pair, hpair, htr⟩ := matched_iff.mp hmatch
  have hfrom : pair.1 = t.from_ := by
    simpa using (find?_mem_pred htr).2
  rw [handleAction_rejected m action cur nxt t hready hmatch hno hself hreg hval']
  refine ⟨?_, hready, ?_, ?_, ?_, ?_⟩
  · simp [heapAfterLeave, Function.update_noteq hne]
  · have : findCurrentStatePair { m with heap := heapAfterLeave m cur } = some pair := hpair
    simp [currentName, this, hfrom]
  · simp [heapAfterLeave, Function.update_noteq hne]
  · simp
  · simp [heapAfterLeave, State.beforeTransition]

/-- Witness of C3 as amended: action `T` from `A`; `C` rejects the data `A`
leaves, and `A` keeps the incremented data. -/
theorem C3_validation_rejected_witness :
    (handleAction Demo.started Demo.Action.T).outcome =
      .raised (.validationRejected (Demo.started.heap 2).description)
    ∧ (handleAction Demo.started Demo.Action.T).machine.currentState_ = some 0
    ∧ currentName (handleAction Demo.started Demo.Action.T).machine = some "A"
    ∧ ((handleAction Demo.started Demo.Action.T).machine.heap 2).data_ =
        (Demo.started.heap 2).data_
    ∧ (∀ c ∈ (handleAction Demo.started Demo.Action.T).calls, c.hook ≠ .afterTransition)
    ∧ ((handleAction Demo.started Demo.Action.T).machine.heap 0).data_ =
        (Demo.started.heap 0).beforeTransitionImpl (Demo.started.heap 0).data_ :=
  C3_validation_rejected Demo.started
    (.call (.setStartingState "A")
      (.call (.addTransition _ _ _)
      (.call (.addTransition _ _ _) (.call (.addTransition _ _ _) (.call (.addTransition _ _ _)
        (.call (.addTransition _ _ _) (.call (.addTransition _ _ _) (.call (.addTransition _ _ _)
          (.call (.addTransition _ _ _)
            (.call (.registerState _ _) (.call (.registerState _ _) (.call (.registerState _ _)
              .init trivial) trivial) trivial)
            trivial) trivial) trivial) trivial) trivial) trivial) trivial) trivial) trivial)
    Demo.Action.T 0 2 ⟨"A", "C"⟩
    (by decide) (by decide) (by decide) (by decide) (by decide) (by decide)

/-- The unregistered-target path, stated on the registry as it is: the name of
the matched record is absent or bound to a null pointer. -/
theorem handleAction_of_null_target [DecidableEq A] (m : StateMachine A D) (action : A)
    (cur : Ptr) (t : Transition)
    (hready : m.currentState_ = some cur)
    (hmatch : matched m action = some t)
    (hno : t.to_ ≠ Transition.NO) (hself : t.to_ ≠ t.from_)
    (hunreg : umFind m.statesMap_ t.to_ = none ∨ umFind m.statesMap_ t.to_ = some none) :
    (handleAction m action).outcome = .raised (.targetStateUnregistered t.to_)
    ∧ (handleAction m action).machine.currentState_ = some cur
    ∧ currentName (handleAction m action).machine = some t.from_ := by
  have hnull : (umIndex m.statesMap_ t.to_ none).1 = none := by
    cases hi : (umIndex m.statesMap_ t.to_ none).1 with
    | none => rfl
    | some p =>
      have hp := umIndex_fst_mem hi
      rcases hunreg with h | h <;> simp [h] at hp
  obtain ⟨pair, hpair, htr⟩ := matched_iff.mp hmatch
  have hfrom : pair.1 = t.from_ := by
    simpa using (find?_mem_pred htr).2
  rw [handleAction_targetUnregistered m action cur t hready hmatch hno hself hnull]
  refine ⟨rfl, hready, ?_⟩
  have hsub : ∃ l, (umIndex m.statesMap_ t.to_ none).2 = m.statesMap_ ++ l := by
    unfold umIndex
    cases umFind m.statesMap_ t.to_ with
    | none => exact ⟨_, rfl⟩
    | some v => exact ⟨[], by simp⟩
  obtain ⟨l, hl⟩ := hsub
  simp only [findCurrentStatePair] at hpair
  simp only [currentName, findCurrentStatePair, hl, List.find?_append, hpair]
  simp [Option.or, hfrom]

/-- C4. Unregistered target. For every Ready machine: if the matched record's
`to` is neither `NO` nor `from` and names a state that was never registered
(no `registerState` call in the machine's history used that name), then
`handleAction` raises the unregistered-target error and the current state
remains the `from` instance. -/
theorem C4_unregistered_target [Inhabited D] [DecidableEq A] (m : StateMachine A D)
    (action : A) (cur : Ptr) (t : Transition)
    (hready : m.currentState_ = some cur)
    (hmatch : matched m action = some t)
    (hno : t.to_ ≠ Transition.NO) (hself : t.to_ ≠ t.from_)
    (hnever : Reachable (withoutRegistering t.to_) m) :
    (handleAction m action).outcome = .raised (.targetStateUnregistered t.to_)
    ∧ (handleAction m action).machine.currentState_ = some cur
    ∧ currentName (handleAction m action).machine = some t.from_ :=
  handleAction_of_null_target m action cur t hready hmatch hno hself hnever.unregistered

/-- Witness of C4: action `Y` from `A` names `Z`, which is never registered. -/
theorem C4_unregistered_target_witness :
    (handleAction Demo.started Demo.Action.Y).outcome = .raised (.targetStateUnregistered "Z")
    ∧ (handleAction Demo.started Demo.Action.Y).machine.currentState_ = some 0
    ∧ currentName (handleAction Demo.started Demo.Action.Y).machine = some "A" :=
  C4_unregistered_target Demo.started Demo.Action.Y 0 ⟨"A", "Z"⟩
    (by decide) (by decide) (by decide) (by decide)
    (.call (.setStartingState "A")
      (.call (.addTransition _ _ _)
      (.call (.addTransition _ _ _) (.call (.addTransition _ _ _) (.call (.addTransition _ _ _)
        (.call (.addTransition _ _ _) (.call (.addTransition _ _ _) (.call (.addTransition _ _ _)
          (.call (.addTransition _ _ _)
            (.call (.registerState "C" _) (.call (.registerState "B" _)
              (.call (.registerState "A" _) .init (show "A" ≠ "Z" by decide))
              (show "B" ≠ "Z" by decide)) (show "C" ≠ "Z" by decide))
            trivial) trivial) trivial) trivial) trivial) trivial) trivial) trivial) trivial)

/-- C5. `setStartingState` rejects unknown names. In every machine a running
program can have reached by `registerState`, `addTransition`,
`setStartingState` and `handleAction` calls (each `throw()` call made so far
has returned), for every name that was never passed to `registerState`,
`setStartingState(name)` raises UnregisteredState and leaves the machine, its
current state included, as it was. -/
theorem C5_setStartingState_rejects_unknown [Inhabited D] [DecidableEq A]
    (m : StateMachine A D) (stateName : String)
    (hreach : Reachable (returningWithoutRegistering stateName) m) :
    setStartingState m stateName = (.raised .unregisteredState, m) := by
  have hnull : NoNullEntry m := (hreach.mono (fun _ _ h => h.1)).noNullEntry
  have hfind : umFind m.statesMap_ stateName = none := by
    rcases (hreach.mono (fun _ _ h => h.2)).unregistered with h | h
    · exact h
    · exact absurd (umFind_mem h) (hnull stateName)
  simp [setStartingState, hfind]

/-- Witness of C5: the demonstration machine after `handleAction(X)` has
returned (`B` is current); `Z` was never registered, and
`setStartingState("Z")` raises and changes nothing. -/
theorem C5_setStartingState_rejects_unknown_witness :
    setStartingState Demo.atB "Z" = (.raised .unregisteredState, Demo.atB) :=
  C5_setStartingState_rejects_unknown Demo.atB "Z"
    (.call (.handleAction Demo.Action.X)
      (.call (.setStartingState "A")
        (.call (.addTransition _ _ _)
        (.call (.addTransition _ _ _) (.call (.addTransition _ _ _) (.call (.addTransition _ _ _)
          (.call (.addTransition _ _ _) (.call (.addTransition _ _ _)
            (.call (.addTransition _ _ _) (.call (.addTransition _ _ _)
              (.call (.registerState "C" _) (.call (.registerState "B" _)
                (.call (.registerState "A" _) .init ⟨trivial, show "A" ≠ "Z" by decide⟩)
                ⟨trivial, show "B" ≠ "Z" by decide⟩) ⟨trivial, show "C" ≠ "Z" by decide⟩)
              ⟨trivial, trivial⟩) ⟨trivial, trivial⟩) ⟨trivial, trivial⟩) ⟨trivial, trivial⟩)
          ⟨trivial, trivial⟩) ⟨trivial, trivial⟩) ⟨trivial, trivial⟩) ⟨trivial, trivial⟩)
        ⟨show (setStartingState Demo.declared "A").1 = .returned () by decide, trivial⟩)
      ⟨show (handleAction Demo.started Demo.Action.X).outcome = .returned true
          ∨ (handleAction Demo.started Demo.Action.X).outcome = .returned false by decide,
        trivial⟩)

/-- C6. NotReady. For every machine on which `setStartingState` has not yet
succeeded, whatever was registered and declared, `handleAction` raises
NotReady for every action, before any other check, leaving the machine as it
was and invoking no hook, and `getCurrentState` raises NotReady. -/
theorem C6_not_ready [Inhabited D] [DecidableEq A] (m : StateMachine A D)
    (hbefore : Reachable beforeStart m) (action : A) :
    handleAction m action = ⟨.raised .notReady, m, []⟩
    ∧ getCurrentState m = .raised .notReady := by
  have hnone := hbefore.notStarted
  exact ⟨handleAction_notReady m action hnone, by simp [getCurrentState, hnone]⟩

/-- Witness of C6: states and transitions are in place, `setStartingState("Q")`
has raised, an earlier `handleAction` has raised; the undeclared action `V`
still gives NotReady. -/
theorem C6_not_ready_witness :
    handleAction Demo.unstarted Demo.Action.V = ⟨.raised .notReady, Demo.unstarted, []⟩
    ∧ getCurrentState Demo.unstarted = .raised .notReady :=
  C6_not_ready Demo.unstarted
    (.call (.handleAction Demo.Action.X) (.call (.setStartingState "Q")
      (.call (.addTransition _ _ _)
      (.call (.addTransition _ _ _) (.call (.addTransition _ _ _) (.call (.addTransition _ _ _)
        (.call (.addTransition _ _ _) (.call (.addTransition _ _ _) (.call (.addTransition _ _ _)
          (.call (.addTransition _ _ _)
            (.call (.registerState "C" _) (.call (.registerState "B" _)
              (.call (.registerState "A" _) .init trivial) trivial) trivial)
            trivial) trivial) trivial) trivial) trivial) trivial) trivial) trivial)
      (show (setStartingState Demo.declared "Q").1 ≠ .returned () by decide)) trivial)
    Demo.Action.V

/-- C7. Ready is persistent. In a running program, once `setStartingState` has
succeeded, after any further sequence of `registerState`, `addTransition`,
`setStartingState` and `handleAction` calls that returned, and after one more
call that may return or raise (a raise from a `throw()` member is the last
thing the program does), a state is current: `getCurrentState` does not raise
NotReady and `handleAction` does not raise NotReady, for any action. -/
theorem C7_ready_persistent [Inhabited D] [DecidableEq A] (m₀ : StateMachine A D)
    (hreach : Reachable returning m₀) (stateName : String)
    (hstart : (setStartingState m₀ stateName).1 = .returned ())
    (later : List (Call A D))
    (hlater : allReturn (setStartingState m₀ stateName).2 later)
    (last : Call A D) (action : A) :
    (∃ p, (after (setStartingState m₀ stateName).2 later).currentState_ = some p)
    ∧ getCurrentState (after (setStartingState m₀ stateName).2 later) ≠ .raised .notReady
    ∧ (handleAction (after (setStartingState m₀ stateName).2 later) action).outcome ≠
        .raised .notReady
    ∧ (∃ p, (last.apply (after (setStartingState m₀ stateName).2 later)).currentState_ = some p)
    ∧ getCurrentState (last.apply (after (setStartingState m₀ stateName).2 later)) ≠
        .raised .notReady
    ∧ (handleAction (last.apply (after (setStartingState m₀ stateName).2 later))
        action).outcome ≠ .raised .notReady := by
  have hnull₀ : NoNullEntry m₀ := hreach.noNullEntry
  have hnull₁ : NoNullEntry (setStartingState m₀ stateName).2 :=
    noNullEntry_apply hnull₀ (.setStartingState stateName) hstart
  have hready₁ : ∃ p, (setStartingState m₀ stateName).2.currentState_ = some p := by
    unfold setStartingState at hstart ⊢
    cases hf : umFind m₀.statesMap_ stateName with
    | none => simp [hf] at hstart
    | some v =>
      simp only [umIndex_of_find_some hf]
      cases v with
      | none => exact absurd (umFind_mem hf) (hnull₀ stateName)
      | some p => exact ⟨p, rfl⟩
  obtain ⟨hnull, hready⟩ := ready_after later _ hnull₁ hready₁ hlater
  have hlast := ready_apply hnull hready last
  exact ⟨hready, (not_notReady_of_ready hready action).1, (not_notReady_of_ready hready action).2,
    hlast, (not_notReady_of_ready hlast action).1, (not_notReady_of_ready hlast action).2⟩

/-- Witness of C7: the demonstration machine is started at `A`; `X` is handled
(returns true, `B` current), `S` is handled (returns false), `setStartingState`
is called again with `C`; the last call is `handleAction(Y)`, which raises. A
state is current throughout. -/
theorem C7_ready_persistent_witness :
    (∃ p, (after (setStartingState Demo.declared "A").2
        [.handleAction Demo.Action.X, .handleAction Demo.Action.S,
         .setStartingState "C"]).currentState_ = some p)
    ∧ getCurrentState (after (setStartingState Demo.declared "A").2
        [.handleAction Demo.Action.X, .handleAction Demo.Action.S,
         .setStartingState "C"]) ≠ .raised .notReady
    ∧ (handleAction (after (setStartingState Demo.declared "A").2
        [.handleAction Demo.Action.X, .handleAction Demo.Action.S,
         .setStartingState "C"]) Demo.Action.V).outcome ≠ .raised .notReady
    ∧ (∃ p, ((Call.handleAction Demo.Action.Y).apply
        (after (setStartingState Demo.declared "A").2
          [.handleAction Demo.Action.X, .handleAction Demo.Action.S,
           .setStartingState "C"])).currentState_ = some p)
    ∧ getCurrentState ((Call.handleAction Demo.Action.Y).apply
        (after (setStartingState Demo.declared "A").2
          [.handleAction Demo.Action.X, .handleAction Demo.Action.S,
           .setStartingState "C"])) ≠ .raised .notReady
    ∧ (handleAction ((Call.handleAction Demo.Action.Y).apply
        (after (setStartingState Demo.declared "A").2
          [.handleAction Demo.Action.X, .handleAction Demo.Action.S,
           .setStartingState "C"])) Demo.Action.V).outcome ≠ .raised .notReady :=
  C7_ready_persistent Demo.declared
    (.call (.addTransition _ _ _)
      (.call (.addTransition _ _ _) (.call (.addTransition _ _ _) (.call (.addTransition _ _ _)
        (.call (.addTransition _ _ _) (.call (.addTransition _ _ _)
          (.call (.addTransition _ _ _) (.call (.addTransition _ _ _)
            (.call (.registerState "C" _) (.call (.registerState "B" _)
              (.call (.registerState "A" _) .init trivial) trivial) trivial)
            trivial) trivial) trivial) trivial) trivial) trivial) trivial) trivial)
    "A" (by decide)
    [.handleAction Demo.Action.X, .handleAction Demo.Action.S, .setStartingState "C"]
    ⟨show (handleAction Demo.started Demo.Action.X).outcome = .returned true
        ∨ (handleAction Demo.started Demo.Action.X).outcome = .returned false by decide,
      show (handleAction Demo.atB Demo.Action.S).outcome = .returned true
        ∨ (handleAction Demo.atB Demo.Action.S).outcome = .returned false by decide,
      show (setStartingState (handleAction Demo.atB Demo.Action.S).machine "C").1 =
        .returned () by decide,
      trivial⟩
    (.handleAction Demo.Action.Y) Demo.Action.V

/-- C8. First match wins. Let no record for `(action, from)` be declared yet.
After `addTransition(action, from, to)` and any further calls (later records
for `(action, from)` included), whenever the machine is Ready with `from` as
the current state's name, the record `handleAction(action)` matches is that
earliest one: it returns false if that `to` is `NO` or `from`, and whenever it
returns true the new current state is the instance registered under that
`to`. -/
theorem C8_first_match_wins [DecidableEq A] (m : StateMachine A D) (action : A)
    (from_ to_ : String) (later : List (Call A D)) (cur : Ptr)
    (hfresh : ∀ t ∈ bucket m action, t.from_ ≠ from_)
    (hready : (after (addTransition m action from_ to_) later).currentState_ = some cur)
    (hname : currentName (after (addTransition m action from_ to_) later) = some from_) :
    matched (after (addTransition m action from_ to_) later) action = some ⟨from_, to_⟩
    ∧ (to_ = Transition.NO ∨ to_ = from_ →
        (handleAction (after (addTransition m action from_ to_) later) action).outcome =
          .returned false)
    ∧ ((handleAction (after (addTransition m action from_ to_) later) action).outcome =
          .returned true →
        ∃ nxt, umFind (after (addTransition m action from_ to_) later).statesMap_ to_ =
            some (some nxt)
          ∧ (handleAction (after (addTransition m action from_ to_) later)
              action).machine.currentState_ = some nxt) := by
  have hmatch : matched (after (addTransition m action from_ to_) later) action =
      some ⟨from_, to_⟩ := by
    simp only [currentName, Option.map_eq_some'] at hname
    obtain ⟨pair, hpair, hfst⟩ := hname
    refine matched_iff.mpr ⟨pair, hpair, ?_⟩
    obtain ⟨extra, hextra⟩ := bucket_after later (addTransition m action from_ to_) action
    subst hfst
    have hnone : List.find? (fun transition => decide (pair.1 = transition.from_))
        (bucket m action) = none := by
      rw [List.find?_eq_none]
      intro t ht
      simpa using fun e => hfresh t ht e.symm
    simp [hextra, bucket_addTransition, findTransition, List.find?_append, hnone]
  refine ⟨hmatch, ?_, ?_⟩
  · intro hnoop
    rw [handleAction_noop _ action cur _ hready hmatch hnoop]
  · intro hret
    exact handleAction_returned_true hready hmatch hret

/-- Witness of C8: `addTransition(X,"A","B")` then `addTransition(X,"A","C")`;
the bucket holds both records, and handling `X` from `A` returns true and makes
`B` (the object at 1) current, not `C` (the object at 2). -/
theorem C8_first_match_wins_witness :
    (matched Demo.duplicated Demo.Action.X = some ⟨"A", "B"⟩
      ∧ ("B" = Transition.NO ∨ "B" = "A" →
          (handleAction Demo.duplicated Demo.Action.X).outcome = .returned false)
      ∧ ((handleAction Demo.duplicated Demo.Action.X).outcome = .returned true →
          ∃ nxt, umFind Demo.duplicated.statesMap_ "B" = some (some nxt)
            ∧ (handleAction Demo.duplicated Demo.Action.X).machine.currentState_ = some nxt))
    ∧ bucket Demo.duplicated Demo.Action.X = [⟨"A", "B"⟩, ⟨"A", "C"⟩]
    ∧ (handleAction Demo.duplicated Demo.Action.X).outcome = .returned true
    ∧ umFind Demo.duplicated.statesMap_ "B" = some (some 1)
    ∧ (handleAction Demo.duplicated Demo.Action.X).machine.currentState_ = some 1
    ∧ currentName (handleAction Demo.duplicated Demo.Action.X).machine = some "B" :=
  ⟨C8_first_match_wins Demo.bare Demo.Action.X "A" "B" [.addTransition Demo.Action.X "A" "C"] 0
      (by decide) (by decide) (by decide),
    by decide, by decide, by decide, by decide, by decide⟩

/-- C9. Unknown action. For every Ready machine and every action for which
`addTransition` was never called, `handleAction` raises
NoTransitionRegisteredForAction, invokes no hook, and leaves the current state,
every object and the registry unchanged; the outcome is an error, not the
`false` of a declared no-op. -/
theorem C9_unknown_action [Inhabited D] [DecidableEq A] (m : StateMachine A D) (action : A)
    (cur : Ptr) (hready : m.currentState_ = some cur)
    (hnever : Reachable (withoutDeclaring action) m) :
    (handleAction m action).outcome = .raised .noTransitionRegisteredForAction
    ∧ (handleAction m action).calls = []
    ∧ (handleAction m action).machine.currentState_ = m.currentState_
    ∧ (handleAction m action).machine.heap = m.heap
    ∧ (handleAction m action).machine.statesMap_ = m.statesMap_
    ∧ (handleAction m action).outcome ≠ .returned false := by
  rw [handleAction_emptyBucket m action cur hready hnever.undeclared]
  simp

/-- Witness of C9: nothing is declared for `V` in the demonstration machine. -/
theorem C9_unknown_action_witness :
    (handleAction Demo.started Demo.Action.V).outcome = .raised .noTransitionRegisteredForAction
    ∧ (handleAction Demo.started Demo.Action.V).calls = []
    ∧ (handleAction Demo.started Demo.Action.V).machine.currentState_ =
        Demo.started.currentState_
    ∧ (handleAction Demo.started Demo.Action.V).machine.heap = Demo.started.heap
    ∧ (handleAction Demo.started Demo.Action.V).machine.statesMap_ = Demo.started.statesMap_
    ∧ (handleAction Demo.started Demo.Action.V).outcome ≠ .returned false :=
  C9_unknown_action Demo.started Demo.Action.V 0 (by decide)
    (.call (.setStartingState "A")
      (.call (.addTransition _ _ _)
      (.call (.addTransition _ _ _) (.call (.addTransition _ _ _)
        (.call (.addTransition _ _ _) (.call (.addTransition _ _ _)
          (.call (.addTransition _ _ _) (.call (.addTransition _ _ _)
            (.call (.addTransition _ _ _)
              (.call (.registerState "C" _) (.call (.registerState "B" _)
                (.call (.registerState "A" _) .init trivial) trivial) trivial)
              (show Demo.Action.X ≠ Demo.Action.V by decide))
            (show Demo.Action.X ≠ Demo.Action.V by decide))
          (show Demo.Action.X ≠ Demo.Action.V by decide))
        (show Demo.Action.Y ≠ Demo.Action.V by decide))
      (show Demo.Action.S ≠ Demo.Action.V by decide))
      (show Demo.Action.T ≠ Demo.Action.V by decide))
      (show Demo.Action.W ≠ Demo.Action.V by decide))
      (show Demo.Action.S ≠ Demo.Action.V by decide)) trivial)

/-- C10. Undeclared (action, current state) pair. For every Ready machine whose
current state is registered: if the action's bucket is non-empty but holds no
record whose `from` is the current state's name, `handleAction` raises
NoTransitionForCurrentState, invokes no hook, and leaves the machine (current
state and all data) as it was. -/
theorem C10_undeclared_pair [DecidableEq A] (m : StateMachine A D) (action : A)
    (cur : Ptr) (name : String)
    (hready : m.currentState_ = some cur)
    (hname : currentName m = some name)
    (hbucket : bucket m action ≠ [])
    (hnone : ∀ t ∈ bucket m action, t.from_ ≠ name) :
    (handleAction m action).outcome = .raised .noTransitionForCurrentState
    ∧ (handleAction m action).calls = []
    ∧ (handleAction m action).machine = m
    ∧ (handleAction m action).machine.currentState_ = some cur
    ∧ (∀ p, ((handleAction m action).machine.heap p).data_ = (m.heap p).data_) := by
  simp only [currentName, Option.map_eq_some'] at hname
  obtain ⟨pair, hpair, hfst⟩ := hname
  have htr : findTransition (bucket m action) pair = none := by
    simp only [findTransition, List.find?_eq_none]
    intro t ht
    simpa [hfst] using fun e => hnone t ht e.symm
  rw [handleAction_noTransition m action cur pair hready hbucket hpair htr]
  simp [hready]

/-- Witness of C10: `W` is declared from `B` only; the machine is at `A`. -/
theorem C10_undeclared_pair_witness :
    (handleAction Demo.started Demo.Action.W).outcome = .raised .noTransitionForCurrentState
    ∧ (handleAction Demo.started Demo.Action.W).calls = []
    ∧ (handleAction Demo.started Demo.Action.W).machine = Demo.started
    ∧ (handleAction Demo.started Demo.Action.W).machine.currentState_ = some 0
    ∧ (∀ p, ((handleAction Demo.started Demo.Action.W).machine.heap p).data_ =
        (Demo.started.heap p).data_) :=
  C10_undeclared_pair Demo.started Demo.Action.W 0 "A"
    (by decide) (by decide) (by decide) (by decide)

/-- C14. Idempotence of no-ops. For every Ready machine, every action whose
matched record is a declared no-op (`to = NO` or `to = from`), and every
`n ≥ 0`: issuing the action `n` times in a row returns false each time, calls
no hook, and leaves the machine (current state and the data of every state)
exactly as it was before the first call. -/
theorem C14_noop_idempotent [DecidableEq A] (m : StateMachine A D) (action : A)
    (cur : Ptr) (t : Transition)
    (hready : m.currentState_ = some cur)
    (hmatch : matched m action = some t)
    (hnoop : t.to_ = Transition.NO ∨ t.to_ = t.from_) (n : Nat) :
    run m (List.replicate n action) = List.replicate n ⟨.returned false, m, []⟩
    ∧ afterActions m (List.replicate n action) = m := by
  have hstep := handleAction_noop m action cur t hready hmatch hnoop
  induction n with
  | zero => exact ⟨rfl, rfl⟩
  | succ k ih =>
    simp only [List.replicate_succ, run, afterActions, hstep]
    exact ⟨by rw [ih.1], ih.2⟩

/-- Witness of C14: five times `X` from `C` (declared `C→NO`) in the machine of
the specification's example, after two `X` have led from `A` to `C`. -/
theorem C14_noop_idempotent_witness :
    run (afterActions Abc.machine [(), ()]) (List.replicate 5 ()) =
      List.replicate 5 ⟨.returned false, afterActions Abc.machine [(), ()], []⟩
    ∧ afterActions (afterActions Abc.machine [(), ()]) (List.replicate 5 ()) =
        afterActions Abc.machine [(), ()] :=
  C14_noop_idempotent (afterActions Abc.machine [(), ()]) () 2 ⟨"C", Transition.NO⟩
    (by decide) (by decide) (Or.inl rfl) 5

/-- C15. Washing-machine example. With the states, the nine transitions and the
starting state `IDLE` of the example program, handling
`[BUTTON_WASH_PRESSED, BUTTON_FINISH_PRESSED, BUTTON_DRY_PRESSED,
BUTTON_FINISH_PRESSED]` raises no error, returns true four times, and the
current state is successively `WASHING`, `IDLE`, `DRYING`, `IDLE`. -/
theorem C15_washing_machine :
    (run WashingExample.washingMachine WashingExample.actionQueue).map (fun r => r.outcome) =
      [.returned true, .returned true, .returned true, .returned true]
    ∧ (run WashingExample.washingMachine WashingExample.actionQueue).map
        (fun r => currentDescription r.machine) =
      [some "WASHING", some "IDLE", some "DRYING", some "IDLE"]
    ∧ (run WashingExample.washingMachine WashingExample.actionQueue).map
        (fun r => currentName r.machine) =
      [some "WASHING", some "IDLE", some "DRYING", some "IDLE"]
    ∧ currentDescription WashingExample.washingMachine = some "IDLE" := by
  decide

/-- C16. Hook order on a successful transition. Whenever `handleAction` returns
true, exactly three hook calls were made, in this order: `beforeTransition` on
the outgoing state (the current state before the call); `validate` on the
target (the instance registered under the matched record's `to`) with the
outgoing state's data as `beforeTransition` left it, the outgoing state still
being current; `afterTransition` on the target, which by then holds that data
and is current. No hook is called on any other object. -/
theorem C16_hook_order [DecidableEq A] (m : StateMachine A D) (action : A)
    (hret : (handleAction m action).outcome = .returned true) :
    ∃ cur nxt t, m.currentState_ = some cur
      ∧ matched m action = some t
      ∧ umFind m.statesMap_ t.to_ = some (some nxt)
      ∧ (handleAction m action).machine.currentState_ = some nxt
      ∧ (handleAction m action).calls =
          [⟨.beforeTransition, cur, (m.heap cur).data_, none, some cur⟩,
           ⟨.validate, nxt, (heapAfterLeave m cur nxt).data_,
             some (m.heap cur).beforeTransition.data_, some cur⟩,
           ⟨.afterTransition, nxt, (m.heap cur).beforeTransition.data_, none, some nxt⟩] := by
  rcases handleAction_classify m action with
    ⟨-, h⟩ | ⟨_, -, -, h⟩ | ⟨_, -, -, -, h⟩ | ⟨_, _, -, -, -, -, h⟩ | ⟨_, _, -, -, -, h⟩ |
    ⟨_, _, -, -, -, -, -, h⟩ | ⟨_, _, _, -, -, -, -, -, -, h⟩ |
    ⟨cur, nxt, t, hc, hmatch, -, -, hreg, -, h⟩
  all_goals rw [h] at hret
  any_goals simp at hret
  refine ⟨cur, nxt, t, hc, hmatch, hreg, ?_, ?_⟩
  · rw [h]
  · rw [h]
    simp [heapAfterLeave]

/-- Witness of C16: action `X` from `A` in the demonstration machine: `A` (at 0)
leaves with its data raised from 0 to 1, `B` (at 1) validates 1 and enters
holding 1. -/
theorem C16_hook_order_witness :
    ∃ cur nxt t, Demo.started.currentState_ = some cur
      ∧ matched Demo.started Demo.Action.X = some t
      ∧ umFind Demo.started.statesMap_ t.to_ = some (some nxt)
      ∧ (handleAction Demo.started Demo.Action.X).machine.currentState_ = some nxt
      ∧ (handleAction Demo.started Demo.Action.X).calls =
          [⟨.beforeTransition, cur, (Demo.started.heap cur).data_, none, some cur⟩,
           ⟨.validate, nxt, (heapAfterLeave Demo.started cur nxt).data_,
             some (Demo.started.heap cur).beforeTransition.data_, some cur⟩,
           ⟨.afterTransition, nxt, (Demo.started.heap cur).beforeTransition.data_, none,
             some nxt⟩] :=
  C16_hook_order Demo.started Demo.Action.X (by decide)

/-- C19. `beforeTransition` runs before the target is resolved. When
`handleAction` fails because the matched record's target name is not
registered, `beforeTransition` has been invoked exactly once, on the outgoing
state, and is the only hook call made (no `validate`, no `afterTransition`);
its effect on that state's data persists after the failed call, and the
outgoing state is still current. -/
theorem C19_leave_before_resolve [DecidableEq A] (m : StateMachine A D) (action : A)
    (name : String)
    (hfail : (handleAction m action).outcome = .raised (.targetStateUnregistered name)) :
    ∃ cur, m.currentState_ = some cur
      ∧ (handleAction m action).calls =
          [⟨.beforeTransition, cur, (m.heap cur).data_, none, some cur⟩]
      ∧ ((handleAction m action).machine.heap cur).data_ =
          (m.heap cur).beforeTransitionImpl (m.heap cur).data_
      ∧ (handleAction m action).machine.currentState_ = some cur := by
  rcases handleAction_classify m action with
    ⟨-, h⟩ | ⟨_, -, -, h⟩ | ⟨_, -, -, -, h⟩ | ⟨_, _, -, -, -, -, h⟩ | ⟨_, _, -, -, -, h⟩ |
    ⟨cur, t, hc, -, -, -, -, h⟩ | ⟨_, _, _, -, -, -, -, -, -, h⟩ |
    ⟨_, _, _, -, -, -, -, -, -, h⟩
  all_goals rw [h] at hfail
  any_goals simp at hfail
  refine ⟨cur, hc, ?_, ?_, ?_⟩
  · rw [h]
  · rw [h]
    simp [heapAfterLeave, State.beforeTransition]
  · rw [h]
    exact hc

/-- Witness of C19: action `Y` from `A` names the unregistered `Z`; `A` keeps
the data its `beforeTransitionImpl` produced. -/
theorem C19_leave_before_resolve_witness :
    ∃ cur, Demo.started.currentState_ = some cur
      ∧ (handleAction Demo.started Demo.Action.Y).calls =
          [⟨.beforeTransition, cur, (Demo.started.heap cur).data_, none, some cur⟩]
      ∧ ((handleAction Demo.started Demo.Action.Y).machine.heap cur).data_ =
          (Demo.started.heap cur).beforeTransitionImpl (Demo.started.heap cur).data_
      ∧ (handleAction Demo.started Demo.Action.Y).machine.currentState_ = some cur :=
  C19_leave_before_resolve Demo.started Demo.Action.Y "Z" (by decide)

/-- C13. `setStartingState` designates the named state. For every machine and
every name: after `registerState(name, ...)` and any further calls that do not
register that name again, `setStartingState(name)` returns, and an immediately
following `getCurrentState()` returns exactly the instance of that (most
recent) registration: the object allocated by it, with the description and
member functions it was constructed with. -/
theorem C13_setStartingState_designates [DecidableEq A] (m₀ : StateMachine A D)
    (stateName : String) (obj : State D) (later : List (Call A D))
    (hlater : ∀ c ∈ later, c.registers ≠ some stateName) :
    (setStartingState (after (registerState m₀ stateName obj) later) stateName).1 = .returned ()
    ∧ getCurrentState
        (setStartingState (after (registerState m₀ stateName obj) later) stateName).2 =
        .returned m₀.next
    ∧ ((setStartingState (after (registerState m₀ stateName obj) later) stateName).2.heap
        m₀.next).sameUpToData obj
    ∧ currentDescription
        (setStartingState (after (registerState m₀ stateName obj) later) stateName).2 =
        some obj.description := by
  obtain ⟨hfind, hobj⟩ := registration_persists later (registerState m₀ stateName obj)
    stateName m₀.next obj hlater (by simp [registerState, umFind_umAssign])
    (by simp [registerState]) (by simp [registerState, State.sameUpToData])
  have hset : setStartingState (after (registerState m₀ stateName obj) later) stateName =
      (.returned (), { after (registerState m₀ stateName obj) later with
        currentState_ := some m₀.next }) := by
    simp [setStartingState, hfind, umIndex_of_find_some hfind]
  rw [hset]
  exact ⟨rfl, rfl, hobj, by simp [currentDescription, hobj.1]⟩

/-- Witness of C13: the test `SetStartingState_SUCCESS`: the four test states
are registered, `setStartingState("teststate1")` makes the first of them
current, and its description is that of `TestState1`. -/
theorem C13_setStartingState_designates_witness :
    ((setStartingState (after (registerState init "teststate1"
          (Fixture.testState "TestState1")) Fixture.registerStates.tail) "teststate1").1 =
        (.returned () : Outcome Unit)
      ∧ getCurrentState
          (setStartingState (after (registerState (init : StateMachine Fixture.TestAction Unit)
            "teststate1" (Fixture.testState "TestState1")) Fixture.registerStates.tail)
            "teststate1").2 = .returned 0
      ∧ ((setStartingState (after (registerState (init : StateMachine Fixture.TestAction Unit)
            "teststate1" (Fixture.testState "TestState1")) Fixture.registerStates.tail)
            "teststate1").2.heap 0).sameUpToData (Fixture.testState "TestState1")
      ∧ currentDescription
          (setStartingState (after (registerState (init : StateMachine Fixture.TestAction Unit)
            "teststate1" (Fixture.testState "TestState1")) Fixture.registerStates.tail)
            "teststate1").2 = some "TestState1")
    ∧ currentDescription Fixture.startedOnly = some "TestState1" :=
  ⟨C13_setStartingState_designates (init : StateMachine Fixture.TestAction Unit) "teststate1"
      (Fixture.testState "TestState1") Fixture.registerStates.tail (by decide),
    by decide⟩

/-- C17. CurrentStateUnregistered is unreachable under correct use. After every
sequence of `registerState`, `addTransition`, `setStartingState` and
`handleAction` calls on a fresh machine in which no state name is registered
twice, `handleAction` does not fail with CurrentStateUnregistered, for any
action; and whenever the machine is Ready, the current instance is stored in
the registry under exactly one name. (Every prefix of such a sequence is such a
sequence, so this covers each `handleAction` call made along the way.) -/
theorem C17_current_state_registered [Inhabited D] [DecidableEq A] (calls : List (Call A D))
    (hnodup : (calls.filterMap Call.registers).Nodup) (action : A) (description : String) :
    (handleAction (after init calls) action).outcome ≠
        .raised (.currentStateUnregistered description)
    ∧ ∀ p, (after (init : StateMachine A D) calls).currentState_ = some p →
        ∃ n, (n, some p) ∈ (after (init : StateMachine A D) calls).statesMap_
          ∧ ∀ n', (n', some p) ∈ (after (init : StateMachine A D) calls).statesMap_ → n' = n := by
  have hreg := current_registered_after calls (init : StateMachine A D) []
    (by simp [init]) (by simp [init]) (by simpa using hnodup)
  have hwf : WellFormed (after (init : StateMachine A D) calls) :=
    (Reachable.after Reachable.init calls).wellFormed
  refine ⟨?_, ?_⟩
  · intro hout
    rcases handleAction_classify (after (init : StateMachine A D) calls) action with
      ⟨-, h⟩ | ⟨_, -, -, h⟩ | ⟨cur, hc, -, hnone, -⟩ | ⟨_, _, -, -, -, -, h⟩ |
      ⟨_, _, -, -, -, h⟩ | ⟨_, _, -, -, -, -, -, h⟩ | ⟨_, _, _, -, -, -, -, -, -, h⟩ |
      ⟨_, _, _, -, -, -, -, -, -, h⟩
    any_goals (rw [h] at hout; simp at hout)
    obtain ⟨n, hn⟩ := hreg cur hc
    exact findCurrentStatePair_eq_none.mp hnone _ hn hc.symm
  · intro p hp
    obtain ⟨n, hn⟩ := hreg p hp
    exact ⟨n, hn, fun n' hn' => hwf.distinct n' n p hn' hn⟩

/-- Witness of C17: the test fixture (four distinct names registered, started,
transitions declared), then `FIVE` handled from `teststate1`. -/
theorem C17_current_state_registered_witness :
    (handleAction (after init Fixture.calls) Fixture.TestAction.FIVE).outcome ≠
        .raised (.currentStateUnregistered "TestState1")
    ∧ ∀ p, (after (init : StateMachine Fixture.TestAction Unit) Fixture.calls).currentState_ =
          some p →
        ∃ n, (n, some p) ∈
            (after (init : StateMachine Fixture.TestAction Unit) Fixture.calls).statesMap_
          ∧ ∀ n', (n', some p) ∈
              (after (init : StateMachine Fixture.TestAction Unit) Fixture.calls).statesMap_ →
              n' = n :=
  C17_current_state_registered Fixture.calls (by decide) Fixture.TestAction.FIVE "TestState1"

/-- C20. Re-registering the current state's name strands the machine. In a
Ready machine a caller can obtain, let `registerState` be called again with
the name under which the current state is registered. Then the registry holds
the new instance under that name, while `getCurrentState` still returns the old
instance; and after any further calls other than `setStartingState`,
`getCurrentState` still returns the old instance and `handleAction` fails with
CurrentStateUnregistered for every action with a non-empty bucket. -/
theorem C20_reregistering_strands [Inhabited D] [DecidableEq A] (m : StateMachine A D)
    (hreach : Reachable anyCall m) (cur : Ptr) (name : String) (obj : State D)
    (later : List (Call A D))
    (hready : m.currentState_ = some cur) (hname : currentName m = some name)
    (hlater : ∀ c ∈ later, c.isStart = false) :
    umFind (registerState m name obj).statesMap_ name = some (some m.next)
    ∧ cur ≠ m.next
    ∧ getCurrentState (registerState m name obj) = .returned cur
    ∧ getCurrentState (after (registerState m name obj) later) = .returned cur
    ∧ ∀ action, bucket (after (registerState m name obj) later) action ≠ [] →
        (handleAction (after (registerState m name obj) later) action).outcome =
          .raised (.currentStateUnregistered
            ((after (registerState m name obj) later).heap cur).description) := by
  have hwf := hreach.wellFormed
  have hkeys : (m.statesMap_.map Prod.fst).Nodup := hreach.uniqueKeys
  have hlt : cur < m.next := hwf.currentBelow cur hready
  have hmem : (name, some cur) ∈ m.statesMap_ := by
    simp only [currentName, Option.map_eq_some'] at hname
    obtain ⟨pair, hpair, hfst⟩ := hname
    obtain ⟨hin, hp⟩ := find?_mem_pred hpair
    obtain ⟨n', v⟩ := pair
    simp only [decide_eq_true_eq, hready] at hp
    simp only at hfst
    subst hp hfst
    exact hin
  have hout : ∀ n, (n, some cur) ∉ (registerState m name obj).statesMap_ := by
    intro n hin
    rcases mem_umAssign_unique hkeys hin with heq | ⟨hold, hne⟩
    · have : cur = m.next := by simpa using (Prod.mk.inj heq).2
      exact absurd this (Nat.ne_of_lt hlt)
    · exact hne (hwf.distinct n name cur hold hmem)
  obtain ⟨hcur', hout'⟩ := stranded_after later (registerState m name obj) cur hlater hready
    (Nat.lt_succ_of_lt hlt) hout
  refine ⟨by simp [registerState, umFind_umAssign], Nat.ne_of_lt hlt, ?_, ?_, ?_⟩
  · simp [getCurrentState, registerState, hready]
  · simp [getCurrentState, hcur']
  · intro action hb
    have hnone : findCurrentStatePair (after (registerState m name obj) later) = none := by
      rw [findCurrentStatePair_eq_none]
      intro e he heq
      exact hout' e.1 (by rw [hcur'] at heq; rw [← heq]; exact he)
    rw [handleAction_currentUnregistered _ action cur hcur' hb hnone]

/-- Witness of C20: in the test fixture, started at `teststate1` (the object at
0), `teststate1` is registered again; `ONE` is handled, another state is
registered, and `ONE` then raises CurrentStateUnregistered for `TestState1`. -/
theorem C20_reregistering_strands_witness :
    (umFind (registerState Fixture.machine "teststate1"
        (Fixture.testState "TestState1")).statesMap_ "teststate1" =
        some (some Fixture.machine.next)
      ∧ 0 ≠ Fixture.machine.next
      ∧ getCurrentState (registerState Fixture.machine "teststate1"
          (Fixture.testState "TestState1")) = .returned 0
      ∧ getCurrentState (after (registerState Fixture.machine "teststate1"
          (Fixture.testState "TestState1"))
          [.handleAction .ONE, .registerState "teststate5" (Fixture.testState "TestState5")]) =
          .returned 0
      ∧ ∀ action, bucket (after (registerState Fixture.machine "teststate1"
            (Fixture.testState "TestState1"))
            [.handleAction .ONE, .registerState "teststate5" (Fixture.testState "TestState5")])
            action ≠ [] →
          (handleAction (after (registerState Fixture.machine "teststate1"
            (Fixture.testState "TestState1"))
            [.handleAction .ONE, .registerState "teststate5" (Fixture.testState "TestState5")])
            action).outcome =
            .raised (.currentStateUnregistered
              ((after (registerState Fixture.machine "teststate1"
                (Fixture.testState "TestState1"))
                [.handleAction .ONE,
                 .registerState "teststate5" (Fixture.testState "TestState5")]).heap
                  0).description))
    ∧ (handleAction (after (registerState Fixture.machine "teststate1"
          (Fixture.testState "TestState1"))
          [.handleAction .ONE, .registerState "teststate5" (Fixture.testState "TestState5")])
          Fixture.TestAction.ONE).outcome = .raised (.currentStateUnregistered "TestState1") :=
  ⟨C20_reregistering_strands Fixture.machine (Reachable.after Reachable.init Fixture.calls) 0
      "teststate1" (Fixture.testState "TestState1")
      [.handleAction .ONE, .registerState "teststate5" (Fixture.testState "TestState5")]
      (by decide) (by decide) (by decide),
    by decide⟩

/-- C11. A run of the machine equals folding the pure transition function
`delta` of the claim over the actions. For every Ready machine a caller can
obtain (in particular every machine with uniquely registered names), with `n`
the name of its current state, and every action sequence on which no
`handleAction` call fails: the name of the current state after each call is the
iterated `delta` from `n`, and each call returns true exactly when the first
record for the name it starts from has a `to` that is neither `NO` nor
`from`. -/
theorem C11_run_refines_delta [Inhabited D] [DecidableEq A] (m : StateMachine A D)
    (hreach : Reachable anyCall m) (cur : Ptr) (n : String) (actions : List A)
    (hready : m.currentState_ = some cur) (hname : currentName m = some n)
    (hok : ∀ r ∈ run m actions, ∃ b, r.outcome = .returned b) :
    (run m actions).map (fun r => (currentName r.machine, r.outcome)) =
      (deltaRun (bucket m) n actions).map (fun p => (some p.1, Outcome.returned p.2)) :=
  run_eq_deltaRun actions m hreach.wellFormed cur n hready hname hok

/-- Witness of C11: the example `A→B`, `B→C`, `C→NO` with `[X,X,X]` gives the
states `[B,C,C]` and the results `[true,true,false]`, as does `delta`; and the
four-state test table gives the descriptions the test asserts. -/
theorem C11_run_refines_delta_witness :
    (run Abc.machine [(), (), ()]).map (fun r => (currentName r.machine, r.outcome)) =
        (deltaRun (bucket Abc.machine) "A" [(), (), ()]).map
          (fun p => (some p.1, Outcome.returned p.2))
    ∧ deltaRun (bucket Abc.machine) "A" [(), (), ()] = [("B", true), ("C", true), ("C", false)]
    ∧ (run Abc.machine [(), (), ()]).map (fun r => (currentName r.machine, r.outcome)) =
        [(some "B", .returned true), (some "C", .returned true), (some "C", .returned false)]
    ∧ (run Fixture.machine Fixture.actions).map (fun r => currentDescription r.machine) =
        Fixture.expected.map some
    ∧ (run Fixture.machine Fixture.actions).map (fun r => currentName r.machine) =
        (deltaRun (bucket Fixture.machine) "teststate1" Fixture.actions).map
          (fun p => some p.1) :=
  ⟨C11_run_refines_delta Abc.machine (Reachable.after Reachable.init _) 0 "A" [(), (), ()]
      (by decide) (by decide) (by decide),
    by decide, by decide, by decide, by decide⟩

/-- C12, the claim as stated fails, in three ways. In the demonstration machine
the triples `(T, "A", "C")` and `(Y, "A", "Z")` were added with `to` neither
`NO` nor `from`, and the current state is `A`; yet `T` raises because `C`
rejects the data and `Y` raises because `Z` is not registered, and the current
state stays `A`. In the machine with two declarations for `(X, "A")` the triple
`(X, "A", "C")` was added, yet `X` from `A` makes `B` current, not `C`. -/
theorem C12_counterexample_declared_triples :
    (⟨"A", "C"⟩ ∈ bucket Demo.started Demo.Action.T
      ∧ currentName Demo.started = some "A"
      ∧ (handleAction Demo.started Demo.Action.T).outcome = .raised (.validationRejected "C")
      ∧ currentName (handleAction Demo.started Demo.Action.T).machine = some "A")
    ∧ (⟨"A", "Z"⟩ ∈ bucket Demo.started Demo.Action.Y
      ∧ (handleAction Demo.started Demo.Action.Y).outcome =
          .raised (.targetStateUnregistered "Z")
      ∧ currentName (handleAction Demo.started Demo.Action.Y).machine = some "A")
    ∧ (⟨"A", "C"⟩ ∈ bucket Demo.duplicated Demo.Action.X
      ∧ currentName Demo.duplicated = some "A"
      ∧ (handleAction Demo.duplicated Demo.Action.X).outcome = .returned true
      ∧ currentName (handleAction Demo.duplicated Demo.Action.X).machine = some "B") := by
  decide

/-- C12, amended. For every triple `(action, from, to)` added via
`addTransition` with `to` neither `NO` nor `from`, when no record for
`(action, from)` was added before it: after any further calls, issuing `action`
while the current state is `from`, with `to` registered and its `validate`
accepting the outgoing state's data as `beforeTransition` leaves it, yields
current state `to` and returns true. -/
theorem C12_declared_transition [Inhabited D] [DecidableEq A] (m₀ : StateMachine A D)
    (hreach : Reachable anyCall m₀) (action : A) (from_ to_ : String)
    (later : List (Call A D)) (cur nxt : Ptr)
    (hno : to_ ≠ Transition.NO) (hself : to_ ≠ from_)
    (hfresh : ∀ t ∈ bucket m₀ action, t.from_ ≠ from_)
    (hready : (after (addTransition m₀ action from_ to_) later).currentState_ = some cur)
    (hname : currentName (after (addTransition m₀ action from_ to_) later) = some from_)
    (hreg : umFind (after (addTransition m₀ action from_ to_) later).statesMap_ to_ =
      some (some nxt))
    (hval : (heapAfterLeave (after (addTransition m₀ action from_ to_) later) cur nxt).validate
      ((after (addTransition m₀ action from_ to_) later).heap cur).beforeTransition.data_ =
        true) :
    (handleAction (after (addTransition m₀ action from_ to_) later) action).outcome =
      .returned true
    ∧ (handleAction (after (addTransition m₀ action from_ to_) later)
        action).machine.currentState_ = some nxt
    ∧ currentName (handleAction (after (addTransition m₀ action from_ to_) later)
        action).machine = some to_ := by
  have hmatch := matched_after_first_declaration m₀ action from_ to_ later hfresh hname
  have hval' : (heapAfterLeave (after (addTransition m₀ action from_ to_) later) cur
      nxt).validate (heapAfterLeave (after (addTransition m₀ action from_ to_) later) cur
        cur).data_ = true := by
    simpa [heapAfterLeave] using hval
  have hstep := handleAction_success _ action cur nxt _ hready hmatch hno hself hreg hval'
  have hwf : WellFormed (handleAction (after (addTransition m₀ action from_ to_) later)
      action).machine :=
    wellFormed_handleAction
      (Reachable.after (.call (.addTransition action from_ to_) hreach trivial) later).wellFormed
      action
  have hcur : (handleAction (after (addTransition m₀ action from_ to_) later)
      action).machine.currentState_ = some nxt := by rw [hstep]
  have hmap : (handleAction (after (addTransition m₀ action from_ to_) later)
      action).machine.statesMap_ =
      (after (addTransition m₀ action from_ to_) later).statesMap_ := by rw [hstep]
  exact ⟨by rw [hstep], hcur, currentName_of_registered hwf hcur (hmap ▸ umFind_mem hreg)⟩

/-- Witness of C12 as amended: `(X, "A", "B")` is the first declaration for
`(X, "A")`; after `(X, "A", "C")` is declared too, `X` from `A` yields `B`. -/
theorem C12_declared_transition_witness :
    (handleAction Demo.duplicated Demo.Action.X).outcome = .returned true
    ∧ (handleAction Demo.duplicated Demo.Action.X).machine.currentState_ = some 1
    ∧ currentName (handleAction Demo.duplicated Demo.Action.X).machine = some "B" :=
  C12_declared_transition Demo.bare
    (.call (.setStartingState "A")
      (.call (.registerState "C" _) (.call (.registerState "B" _)
        (.call (.registerState "A" _) .init trivial) trivial) trivial) trivial)
    Demo.Action.X "A" "B" [.addTransition Demo.Action.X "A" "C"] 0 1
    (by decide) (by decide) (by decide) (by decide) (by decide) (by decide) (by decide)

/-- C18, the code at the failing input. In the demonstration machine the
registry holds the names `A`, `B`, `C`. `handleAction(Y)` matches the record
`A→Z`, raises because `Z` is not registered, and leaves the registry with a
fourth name, `Z`, bound to a null pointer: an entry that no `registerState`
call created. -/
theorem C18_handleAction_adds_registry_entry :
    Demo.started.statesMap_.map Prod.fst = ["A", "B", "C"]
    ∧ umFind Demo.started.statesMap_ "Z" = none
    ∧ (handleAction Demo.started Demo.Action.Y).outcome = .raised (.targetStateUnregistered "Z")
    ∧ (handleAction Demo.started Demo.Action.Y).machine.statesMap_.map Prod.fst =
        ["A", "B", "C", "Z"]
    ∧ umFind (handleAction Demo.started Demo.Action.Y).machine.statesMap_ "Z" = some none := by
  decide

/-- C21. A state registered under the literal name `no` (the value of
`Transition::NO`) can never be entered by a transition. In every machine a
caller can obtain: every matched record whose `to` is `no` is treated as a
declared no-op, whatever the registry holds under `no` (`handleAction` returns
false, calls no hook and leaves the machine as it was); and no call other than
`setStartingState` makes the instance registered under `no` current: if it is
current after such a call, it was current before. -/
theorem C21_no_is_never_entered [Inhabited D] [DecidableEq A] (m : StateMachine A D)
    (hreach : Reachable anyCall m) :
    (∀ action cur t, m.currentState_ = some cur → matched m action = some t →
        t.to_ = Transition.NO →
        handleAction m action = ⟨.returned false, m, []⟩)
    ∧ (∀ (c : Call A D) (p : Ptr), c.isStart = false →
        umFind (c.apply m).statesMap_ Transition.NO = some (some p) →
        (c.apply m).currentState_ = some p → m.currentState_ = some p) := by
  have hwf := hreach.wellFormed
  refine ⟨fun action cur t hready hmatch hto =>
    handleAction_noop m action cur t hready hmatch (Or.inl hto), ?_⟩
  intro c p hc hno hcur
  cases c with
  | registerState n obj => exact hcur
  | addTransition a f t => exact hcur
  | setStartingState n => simp [Call.isStart] at hc
  | handleAction a =>
    simp only [Call.apply] at hno hcur
    rcases handleAction_classify m a with
      ⟨-, h⟩ | ⟨_, -, -, h⟩ | ⟨_, -, -, -, h⟩ | ⟨_, _, -, -, -, -, h⟩ | ⟨_, _, -, -, -, h⟩ |
      ⟨_, _, -, -, -, -, -, h⟩ | ⟨_, _, _, -, -, -, -, -, -, h⟩ |
      ⟨cur, nxt, t, -, -, hnot, -, hreg, -, h⟩
    any_goals (rw [h] at hcur; exact hcur)
    rw [h] at hcur hno
    simp only [Option.some.injEq] at hcur
    subst hcur
    exact absurd (hwf.distinct t.to_ Transition.NO nxt (umFind_mem hreg) (umFind_mem hno)) hnot

/-- Witness of C21: with a state registered under `no` (the object at 1) and the
record `A→no`, handling the action from `A` returns false, calls no hook and
leaves `A` (the object at 0) current; `setStartingState("no")` does make the
object at 1 current. -/
theorem C21_no_is_never_entered_witness :
    ((∀ action cur t, NoState.machine.currentState_ = some cur →
          matched NoState.machine action = some t → t.to_ = Transition.NO →
          handleAction NoState.machine action = ⟨.returned false, NoState.machine, []⟩)
      ∧ (∀ (c : Call Unit Unit) (p : Ptr), c.isStart = false →
          umFind (c.apply NoState.machine).statesMap_ Transition.NO = some (some p) →
          (c.apply NoState.machine).currentState_ = some p →
          NoState.machine.currentState_ = some p))
    ∧ Transition.NO = "no"
    ∧ umFind NoState.machine.statesMap_ "no" = some (some 1)
    ∧ NoState.machine.currentState_ = some 0
    ∧ matched NoState.machine () = some ⟨"A", "no"⟩
    ∧ (handleAction NoState.machine ()).outcome = .returned false
    ∧ (handleAction NoState.machine ()).calls = []
    ∧ (handleAction NoState.machine ()).machine.currentState_ = some 0
    ∧ (setStartingState NoState.machine "no").2.currentState_ = some 1 :=
  ⟨C21_no_is_never_entered NoState.machine (Reachable.after Reachable.init NoState.calls),
    by decide, by decide, by decide, by decide, by decide, by decide, by decide, by decide⟩

end scorpion
